import Mathlib

/-!
Shallow embedding of `pvmismatch/pvmismatch_lib/pvmodule.py` (solargik/PVMismatch).

The module-level curve assembly (`PVmodule.calcMod`, `combine_parallel_circuits`)
is embedded symbolically: the external curve primitives `pvconst.calcSeries` and
`pvconst.calcParallel` (defined in `pvconstants.py`, which only exposes its
interface here) are represented as constructors of an expression tree `IVExpr`
that records exactly which curves the code combines and which bounding hints it
passes.  Hints that the code computes from per-cell data (`self.Isc`,
`self.Voc`, `self.VRBD`, `np.interp` on per-cell curves) are evaluated to
rational values; hints that the code computes from the numeric output arrays of
the external primitives are recorded relative to the combination node that
consumes them (`selfVmax` = max over the voltage samples of this node's input
curves, `selfMeanIsc0` = mean over this node's input curves of their current
interpolated at zero voltage, and so on), since in every call site of
`calcMod` those hints are functions of exactly the curves being combined by
that same call.

The copy-on-write irradiance update (`PVmodule.setSuns`) depends on Python
object identity, so cell states live in a heap (`List PVCell`) and the module
holds one heap reference per flat cell index; `copy(pvcell)` is a fresh
allocation and `pvc.Ee = x` is the external single-cell recomputation, passed
in as a function `recalc`.

Numbers are rationals (`ℚ`): the claims under study are structural
(which curves are combined, which hints are passed, which references alias)
and none depends on floating-point rounding.
-/

/-- `min` of a list of rationals, `numpy.ndarray.min()` on a nonempty array. -/
def qmin : List ℚ → ℚ
  | [] => 0
  | x :: xs => xs.foldl min x

/-- `max` of a list of rationals, `numpy.ndarray.max()` on a nonempty array. -/
def qmax : List ℚ → ℚ
  | [] => 0
  | x :: xs => xs.foldl max x

/-- `numpy.ndarray.mean()`: sum divided by length. -/
def qmean (l : List ℚ) : ℚ := l.sum / l.length

/-- Helper for `interp`: walk the remaining sample points, carrying the
previous point; linear interpolation inside the bracketing interval,
last sample value beyond the right end. -/
def interpAux (x : ℚ) : List (ℚ × ℚ) → ℚ × ℚ → ℚ
  | [], last => last.2
  | p :: rest, p0 =>
    if x ≤ p.1 then
      if p.1 = p0.1 then p.2
      else p0.2 + (p.2 - p0.2) * (x - p0.1) / (p.1 - p0.1)
    else interpAux x rest p

/-- `numpy.interp(x, xp, fp)` for increasing sample positions `xp`:
clamped to the end values outside the sampled range, piecewise linear
inside. -/
def interp (x : ℚ) (xp fp : List ℚ) : ℚ :=
  match xp.zip fp with
  | [] => 0
  | p :: rest => if x ≤ p.1 then p.2 else interpAux x rest p

/-- One topology entry: the cell dict `{'crosstie': ..., 'idx': ...}`. -/
structure CellSlot where
  crosstie : Bool
  idx : Nat
  deriving DecidableEq, Repr

/-- A column of the topology: the cells of one column, one per row. -/
abbrev Column := List CellSlot

/-- A substring: an ordered list of columns. -/
abbrev Substring' := List Column

/-- A cell position pattern: ordered list of substrings (`cell_pos`). -/
abbrev CellPos := List Substring'

/-- Per-cell state, the slice of `PVcell` that `pvmodule.py` reads:
irradiance `Ee`, cell temperature, short-circuit current `Isc`,
open-circuit voltage `Voc`, reverse-breakdown voltage `VRBD` and the
sampled I-V curve `(Icell, Vcell)`. -/
structure PVCell where
  Ee : ℚ
  Tcell : ℚ
  Isc : ℚ
  Voc : ℚ
  VRBD : ℚ
  Icell : List ℚ
  Vcell : List ℚ
  deriving DecidableEq, Repr

/-- Default cell used for out-of-range list reads (the Python code would
raise `IndexError`; theorems only quantify over in-range indices). -/
def dfltCell : PVCell := ⟨0, 0, 0, 0, 0, [], []⟩

/-- A bounding hint passed to a curve primitive.  `const` is a value the
code computes from per-cell data; the `self*` forms are the hints the code
computes from the numeric outputs of the external primitives, recorded
relative to the node that consumes them:
`selfVmax`/`selfVmin` = max/min over all voltage samples of this node's
input curves; `selfMeanIsc0` = mean over this node's input curves of the
current interpolated at zero voltage; `selfMaxImax` = max over this node's
input curves of the maximum current sample. -/
inductive Hint where
  | const (q : ℚ)
  | selfVmax
  | selfVmin
  | selfMeanIsc0
  | selfMaxImax
  deriving DecidableEq, Repr

/-- Symbolic I-V curve: either a single cell's curve
(`self.Icell[idx], self.Vcell[idx]`), a call to the external
`pvconst.calcSeries(curves, hintIsc, hintImax)`, a call to the external
`pvconst.calcParallel(curves, hintVmax, hintVmin)`, or the bypass-diode
clamp `V[V < Vbypass] = Vbypass` applied to a curve. -/
inductive IVExpr where
  | cell (idx : Nat)
  | series (curves : List IVExpr) (hintIsc hintImax : Hint)
  | parallel (curves : List IVExpr) (hintVmax hintVmin : Hint)
  | clamped (vbypass : ℚ) (curve : IVExpr)

/-- `self.pvcells[i]` viewed per flat cell index (`self.Icell[i]` etc.). -/
def cellAt (cells : List PVCell) (i : Nat) : PVCell := cells.getD i dfltCell

/-- A cell's current interpolated at its own reverse-breakdown voltage:
`np.interp(vrbd, v, i)` in `calcMod`. -/
def IatVrbd (c : PVCell) : ℚ := interp c.VRBD c.Vcell c.Icell

/-- `pvconst.calcSeries(self.Icell[idxs], self.Vcell[idxs],
self.Isc[idxs].mean(), IatVrbd.max())`: the series combination of the cell
curves at `idxs`, used both by the pure-series branch of `calcMod` and by
the series-run collapse inside the mixed branch. -/
def seriesCombineCells (cells : List PVCell) (idxs : List Nat) : IVExpr :=
  IVExpr.series (idxs.map IVExpr.cell)
    (Hint.const (qmean (idxs.map (fun i => (cellAt cells i).Isc))))
    (Hint.const (qmax (idxs.map (fun i => IatVrbd (cellAt cells i)))))

/-- The flattened index list of a substring:
`[r['idx'] for c in substr for r in c]`. -/
def flatIdxs (substr : Substring') : List Nat :=
  (substr.map (fun c => c.map CellSlot.idx)).flatten

/-- Pure-series branch of `calcMod` (every crosstie flag `False`). -/
def calcSubstrSeries (cells : List PVCell) (substr : Substring') : IVExpr :=
  seriesCombineCells cells (flatIdxs substr)

/-- Number of rows produced by Python's `zip(*cols)`: the least column
length (zero when there are no columns). -/
def zipStarLen : List (List α) → Nat
  | [] => 0
  | c :: cs => cs.foldl (fun m l => min m l.length) c.length

/-- Python's `zip(*cols)`: row `i` collects the `i`-th entry of every
column, for `i` below every column's length. -/
def zipStar (cols : List (List α)) : List (List α) :=
  (List.range (zipStarLen cols)).map (fun i => cols.filterMap (fun c => c.get? i))

/-- Pure-crosstied branch of `calcMod` (every crosstie flag `True`):
one parallel combination per row with `hint_Vmax = self.Voc[idxs].max()`
(the row's cells) and `hint_Vmin = self.VRBD.min()` (every cell of the
module), then a series combination of the row curves with
`hint_Isc = Isc_rows.mean()` and `hint_Imax = Imax_rows.max()`. -/
def calcSubstrCrosstied (cells : List PVCell) (substr : Substring') : IVExpr :=
  let rowCurves := (zipStar substr).map (fun row =>
    let idxs := row.map CellSlot.idx
    IVExpr.parallel (idxs.map IVExpr.cell)
      (Hint.const (qmax (idxs.map (fun i => (cellAt cells i).Voc))))
      (Hint.const (qmin (cells.map PVCell.VRBD))))
  IVExpr.series rowCurves .selfMeanIsc0 .selfMaxImax

/-- `combine_parallel_circuits(IVprev_cols, pvconst)`: for each row of
`zip(*IVprev_cols)` a parallel combination of the row's pieces with
`hint_Vmax = Vparallel.max()` and `hint_Vmin = Vparallel.min()` (the
voltage samples of those same pieces), then the series combination of the
row curves with `hint_Isc = Isc_rows.mean()`, `hint_Imax = Imax_rows.max()`. -/
def combine_parallel_circuits (IVprev_cols : List (List IVExpr)) : IVExpr :=
  let rowCurves := (zipStar IVprev_cols).map (fun pieces =>
    IVExpr.parallel pieces .selfVmax .selfVmin)
  IVExpr.series rowCurves .selfMeanIsc0 .selfMaxImax

/-- Helper for `get_series_cells`: accumulate the indices of the current
series run (in reverse); a crosstied cell emits the pending run and starts
a new one with itself. -/
def gscAux : List CellSlot → List Nat → List (List Nat)
  | [], acc => [acc.reverse]
  | c :: rest, acc =>
    if c.crosstie then acc.reverse :: gscAux rest [c.idx]
    else gscAux rest (c.idx :: acc)

/-- Modelled from the spec: `get_series_cells` lives in `pvconstants.py`,
whose source is not part of this tree.  Per the spec, it splits a column
into maximal runs delimited by crosstied rows: each crosstied row closes
the pending run and begins a new run that starts with itself, so the first
emitted run is empty exactly when the column's first row is crosstied
("first row should always be empty since it must be crosstied" in
`calcMod`), and every later run begins with its crosstied row followed by
the non-crosstied rows under it.  The `prev_col` argument of the original
has no role described by the spec and is omitted. -/
def get_series_cells (col : Column) : List (List Nat) := gscAux col []

/-- The `calcMod` topology-error message. -/
def topologyErrorMsg : String := "First row and last rows must be crosstied."

/-- The inner loop of the mixed branch over the groups yielded by
`get_series_cells`: an empty group clears `is_first`; a nonempty group
while `is_first` still holds raises the topology error; a group of more
than one index is series-combined; a single index passes through as that
cell's curve. -/
def processGroups (cells : List PVCell) :
    List (List Nat) → Bool → Except String (List IVExpr)
  | [], _ => .ok []
  | g :: rest, is_first =>
    if g.isEmpty then processGroups cells rest false
    else if is_first then .error topologyErrorMsg
    else
      match processGroups cells rest is_first with
      | .error e => .error e
      | .ok others =>
        .ok ((if 1 < g.length then seriesCombineCells cells g
              else IVExpr.cell (g.headD 0)) :: others)

/-- One column of the mixed branch: the `IVcols` list built from
`get_series_cells(col, prev_col)`. -/
def processColumn (cells : List PVCell) (col : Column) : Except String (List IVExpr) :=
  processGroups cells (get_series_cells col) true

/-- The mutable state of the mixed-branch column walk, with the source's
variable names: closed block curves `IVall_cols`, the previous column
`prev_col` (`None` right after a block closes), and the pending group's
per-column piece lists `IVprev_cols`. -/
structure MixedState where
  IVall_cols : List IVExpr
  prev_col : Option Column
  IVprev_cols : List (List IVExpr)

/-- `all(icol['crosstie'] == jcol['crosstie'] for icol, jcol in
zip(prev_col, col))`. -/
def samePattern (prev col : Column) : Bool :=
  (prev.zip col).all (fun p => p.1.crosstie == p.2.crosstie)

/-- Python truthiness of `prev_col`: not `None` and not the empty list. -/
def prevTruthy : Option Column → Bool
  | none => false
  | some c => !c.isEmpty

/-- One iteration of `for col in substr` in the mixed branch.  The current
column's pieces are appended to `IVprev_cols` *before* the pattern
comparison; when the patterns differ the whole pending list (current
column included) is combined into a closed block and both `prev_col` and
`IVprev_cols` are reset (`continue` skips the `prev_col = col`
assignment). -/
def mixedStepCore (st : MixedState) (col : Column) (IVcols : List IVExpr) : MixedState :=
  let pending := st.IVprev_cols ++ [IVcols]
  match st.prev_col with
  | some prev =>
    if prev.isEmpty then ⟨st.IVall_cols, some col, pending⟩
    else if samePattern prev col then ⟨st.IVall_cols, some col, pending⟩
    else ⟨st.IVall_cols ++ [combine_parallel_circuits pending], none, []⟩
  | none => ⟨st.IVall_cols, some col, pending⟩

/-- The `Except`-threading wrapper around `mixedStepCore`. -/
def mixedStep (cells : List PVCell) (st : MixedState) (col : Column) :
    Except String MixedState :=
  match processColumn cells col with
  | .error e => .error e
  | .ok IVcols => .ok (mixedStepCore st col IVcols)

/-- The mixed-branch walk over all columns of a substring. -/
def mixedLoop (cells : List PVCell) : MixedState → List Column → Except String MixedState
  | st, [] => .ok st
  | st, col :: cols =>
    match mixedStep cells st col with
    | .error e => .error e
    | .ok st' => mixedLoop cells st' cols

/-- Initial state of the mixed-branch walk. -/
def initMixed : MixedState := ⟨[], none, []⟩

/-- The whole mixed branch of `calcMod`: walk the columns, then either
combine the single never-closed pending group, or parallel-combine the
closed blocks with `hint_Vmax = Vparallel.max()`, `hint_Vmin =
Vparallel.min()` over those block curves (the pending group left after
the last closed block is not used). -/
def calcSubstrMixedEnd (st : MixedState) : IVExpr :=
  if st.IVall_cols.isEmpty then combine_parallel_circuits st.IVprev_cols
  else IVExpr.parallel st.IVall_cols .selfVmax .selfVmin

/-- The `Except`-threading wrapper around the mixed-branch walk. -/
def calcSubstrMixed (cells : List PVCell) (substr : Substring') : Except String IVExpr :=
  match mixedLoop cells initMixed substr with
  | .error e => .error e
  | .ok st => .ok (calcSubstrMixedEnd st)

/-- `all(r['crosstie'] == False for c in substr for r in c)`. -/
def allSeriesSub (substr : Substring') : Bool :=
  substr.all (fun c => c.all (fun r => r.crosstie == false))

/-- `all(r['crosstie'] == True for c in substr for r in c)`. -/
def allCrosstiedSub (substr : Substring') : Bool :=
  substr.all (fun c => c.all (fun r => r.crosstie == true))

/-- The per-substring classification and dispatch of `calcMod`. -/
def calcSubstr (cells : List PVCell) (substr : Substring') : Except String IVExpr :=
  if allSeriesSub substr then .ok (calcSubstrSeries cells substr)
  else if allCrosstiedSub substr then .ok (calcSubstrCrosstied cells substr)
  else calcSubstrMixed cells substr

/-- The bypass-diode clamp `Vsub[Vsub < self.Vbypass] = self.Vbypass`
applied to a voltage sample array. -/
def bypassClamp (vbypass : ℚ) (V : List ℚ) : List ℚ :=
  V.map (fun v => if v < vbypass then vbypass else v)

/-- The `for substr in self.cell_pos` loop of `calcMod`: substring curves
in order; an exception in any substring aborts the whole loop. -/
def calcSubstrs (cells : List PVCell) : List Substring' → Except String (List IVExpr)
  | [] => .ok []
  | s :: ss =>
    match calcSubstr cells s with
    | .error e => .error e
    | .ok iv =>
      match calcSubstrs cells ss with
      | .error e => .error e
      | .ok rest => .ok (iv :: rest)

/-- `PVmodule.calcMod`: every substring curve (bypass-clamped), and the
module curve: the series combination of the clamped substring curves with
`hint_Isc = Isc_substr.mean()` (zero-voltage interpolated currents) and
`hint_Imax = Imax_substr.max()`.  An exception in any substring aborts the
whole computation with no partial output. -/
def calcMod (cells : List PVCell) (vbypass : ℚ) (cp : CellPos) :
    Except String (List IVExpr × IVExpr) :=
  match calcSubstrs cells cp with
  | .error e => .error e
  | .ok subs =>
    let clamps := subs.map (IVExpr.clamped vbypass)
    .ok (clamps, IVExpr.series clamps .selfMeanIsc0 .selfMaxImax)

/-- `self.numberCells = sum([len(c) for s in self.cell_pos for c in s])`. -/
def numberCellsOf (cp : CellPos) : Nat :=
  (cp.map (fun s => (s.map List.length).sum)).sum

/-- The per-index cell list seen by `calcMod`: each flat index
dereferences its heap cell. -/
def derefCells (refs : List Nat) (heap : List PVCell) : List PVCell :=
  refs.map (fun r => heap.getD r dfltCell)

/-- A module: the topology, the per-index heap references standing for the
Python object references in `self.pvcells`, the heap of `PVcell` objects,
and the derived symbolic curves of the last `calcMod` run. -/
structure ModuleSt where
  cell_pos : CellPos
  numberCells : Nat
  refs : List Nat
  heap : List PVCell
  Vbypass : ℚ
  IVsubstr : List IVExpr
  IVmod : IVExpr

/-- The `pvcells` argument of `PVmodule.__init__`: a single template cell
(replicated as one shared object, `[pvcells] * self.numberCells`) or an
explicit list of distinct cell objects. -/
inductive InitCells where
  | single (c : PVCell)
  | list (cs : List PVCell)

/-- The `PVmodule.__init__` cell-count error message. -/
def configErrorMsg : String := "Number of cells doesn't match cell position pattern."

/-- `PVmodule.__init__`: count the slots of `cell_pos`, normalize
`pvcells`, fail when the list length differs from the slot count, then
compute the module curves. -/
def pvmoduleInit (cp : CellPos) (pvcells : InitCells) (vbypass : ℚ) :
    Except String ModuleSt :=
  let n := numberCellsOf cp
  let rh : List Nat × List PVCell :=
    match pvcells with
    | .single c => (List.replicate n 0, [c])
    | .list cs => (List.range cs.length, cs)
  if rh.1.length ≠ n then
    .error configErrorMsg
  else
    match calcMod (derefCells rh.1 rh.2) vbypass cp with
    | .error e => .error e
    | .ok d => .ok ⟨cp, n, rh.1, rh.2, vbypass, d.1, d.2⟩

/-- Lookup in the `old_pvcells` identity dictionary: the new reference
recorded for an old reference, if any. -/
def assocFind : List (Nat × Nat) → Nat → Option Nat
  | [], _ => none
  | p :: rest, o => if p.1 = o then some p.2 else assocFind rest o

/-- The copy-on-write loop shared by the scalar paths of `setSuns`: for
each `(cell_id, old reference)` pair, reuse the recorded new reference
for that old object if one exists, otherwise allocate `mk` applied to the
old cell as a fresh heap object and record it.  `mk` is `copy` for the
`cells is None` path (irradiance is set on the copies afterwards) and
copy-then-set-`Ee` for the explicit-cells path. -/
def cowLoop (mk : PVCell → PVCell) :
    List (Nat × Nat) → List Nat → List PVCell → List (Nat × Nat) →
    List Nat × List PVCell × List (Nat × Nat)
  | [], refs, heap, m => (refs, heap, m)
  | (cid, oldref) :: rest, refs, heap, m =>
    match assocFind m oldref with
    | some nr => cowLoop mk rest (refs.set cid nr) heap m
    | none =>
      cowLoop mk rest (refs.set cid heap.length)
        (heap ++ [mk (heap.getD oldref dfltCell)]) (m ++ [(oldref, heap.length)])

/-- `setSuns`, scalar irradiance, `cells is None` (lines 236-249): one
`copy` per distinct old object, shared by every index that shared the old
object, then `pvc.Ee = Ee` (the external recomputation `recalc`) once on
each copy. -/
def setSunsScalarNone (recalc : PVCell → ℚ → PVCell) (Ee : ℚ)
    (refs : List Nat) (heap : List PVCell) : List Nat × List PVCell :=
  let r := cowLoop id refs.enum refs heap []
  (r.1, r.2.2.foldl (fun h p => h.set p.2 (recalc (h.getD p.2 dfltCell) Ee)) r.2.1)

/-- `setSuns`, scalar irradiance with an explicit cell list (lines
258-269): the old references are read out before the loop
(`cells_to_update`), and each distinct old object gets one copy with the
new irradiance applied (`copy(pvcell)` then `.Ee = Ee`). -/
def setSunsScalarSubset (recalc : PVCell → ℚ → PVCell) (Ee : ℚ) (cells : List Nat)
    (refs : List Nat) (heap : List PVCell) : List Nat × List PVCell :=
  let pairs := cells.map (fun cid => (cid, refs.getD cid 0))
  let r := cowLoop (fun c => recalc c Ee) pairs refs heap []
  (r.1, r.2.1)

/-- `setSuns`, per-cell irradiance, `cells is None` (lines 250-254): every
cell index unconditionally gets its own fresh copy with its own value set
(`self.pvcells[cell_idx] = copy(...)` then `.Ee = Ee_idx`), with no
sharing detection. -/
def setSunsVecNone (recalc : PVCell → ℚ → PVCell) (qs : List ℚ)
    (refs : List Nat) (heap : List PVCell) : List Nat × List PVCell :=
  qs.enum.foldl (fun acc p =>
    let oldref := acc.1.getD p.1 0
    (acc.1.set p.1 acc.2.length,
     acc.2 ++ [recalc (acc.2.getD oldref dfltCell) p.2])) (refs, heap)

/-- Insertion into a sorted list of rationals. -/
def insertSorted (x : ℚ) : List ℚ → List ℚ
  | [] => [x]
  | y :: ys => if x ≤ y then x :: y :: ys else y :: insertSorted x ys

/-- `np.unique`: the distinct values in ascending order. -/
def uniqueSorted (qs : List ℚ) : List ℚ := qs.dedup.foldr insertSorted []

/-- `setSuns`, per-cell irradiance with an explicit cell list (lines
270-287): for each distinct requested value (in `np.unique` order), run
the scalar copy-on-write update on the sub-list of cells requesting that
value, with a fresh identity dictionary per value. -/
def setSunsVecSubset (recalc : PVCell → ℚ → PVCell) (qs : List ℚ) (cells : List Nat)
    (refs : List Nat) (heap : List PVCell) : List Nat × List PVCell :=
  (uniqueSorted qs).foldl (fun acc v =>
    let cells_subset := (cells.zip qs).filterMap
      (fun p => if p.2 = v then some p.1 else none)
    setSunsScalarSubset recalc v cells_subset acc.1 acc.2) (refs, heap)

/-- The `setSuns` wrong-length error message. -/
def invalidInputMsg : String := "Input irradiance value (Ee) for each cell!"

/-- The irradiance argument of `setSuns`: a scalar or a per-cell array. -/
inductive EeArg where
  | scalar (q : ℚ)
  | vec (qs : List ℚ)

/-- The final `self.calcMod()` of `setSuns` (line 290): recompute the
derived curves; an exception there leaves the already-reassigned cell
references in place with the old derived curves, exactly as in Python. -/
def finishSetSuns (st : ModuleSt) : Option String × ModuleSt :=
  match calcMod (derefCells st.refs st.heap) st.Vbypass st.cell_pos with
  | .ok d => (none, { st with IVsubstr := d.1, IVmod := d.2 })
  | .error e => (some e, st)

/-- `PVmodule.setSuns(Ee, cells)`: dispatch on `cells is None` and on
scalar-versus-array `Ee`, raising the wrong-length error otherwise.  On
the explicit-cells error path the only statement already executed is the
shallow list copy `self.pvcells = copy(self.pvcells)`, which leaves every
per-index reference unchanged, so the state is returned unmodified. -/
def setSuns (recalc : PVCell → ℚ → PVCell) (st : ModuleSt) (Ee : EeArg)
    (cellsArg : Option (List Nat)) : Option String × ModuleSt :=
  match cellsArg with
  | none =>
    match Ee with
    | .scalar q =>
      let r := setSunsScalarNone recalc q st.refs st.heap
      finishSetSuns { st with refs := r.1, heap := r.2 }
    | .vec qs =>
      if qs.length = st.numberCells then
        let r := setSunsVecNone recalc qs st.refs st.heap
        finishSetSuns { st with refs := r.1, heap := r.2 }
      else (some invalidInputMsg, st)
  | some cells =>
    match Ee with
    | .scalar q =>
      let r := setSunsScalarSubset recalc q cells st.refs st.heap
      finishSetSuns { st with refs := r.1, heap := r.2 }
    | .vec qs =>
      if qs.length = cells.length then
        let r := setSunsVecSubset recalc qs cells st.refs st.heap
        finishSetSuns { st with refs := r.1, heap := r.2 }
      else (some invalidInputMsg, st)

/-! ## Helper lemmas -/

lemma getD_map_q (f : ℚ → ℚ) : ∀ (l : List ℚ) (i : Nat), i < l.length →
    (l.map f).getD i 0 = f (l.getD i 0)
  | a :: l, 0, _ => rfl
  | a :: l, i + 1, h => getD_map_q f l i (by simpa using h)

/-! ## C5: bypass clamping -/

/-- C5: Bypass clamping of a substring curve replaces exactly those voltage
samples with `V < Vbypass` by the value `Vbypass` exactly, leaves every
sample with `V ≥ Vbypass` unchanged, and is idempotent: applying it to a
curve whose voltages are all `≥ Vbypass` changes nothing. -/
theorem C5_bypass_clamp (vb : ℚ) (V : List ℚ) :
    (bypassClamp vb V).length = V.length ∧
    (∀ i, i < V.length →
      (V.getD i 0 < vb → (bypassClamp vb V).getD i 0 = vb) ∧
      (vb ≤ V.getD i 0 → (bypassClamp vb V).getD i 0 = V.getD i 0)) ∧
    bypassClamp vb (bypassClamp vb V) = bypassClamp vb V ∧
    ((∀ v ∈ V, vb ≤ v) → bypassClamp vb V = V) := by
  refine ⟨by simp [bypassClamp], ?_, ?_, ?_⟩
  · intro i hi
    rw [bypassClamp, getD_map_q _ _ _ hi]
    exact ⟨fun hlt => if_pos hlt, fun hge => if_neg (not_lt.mpr hge)⟩
  · rw [bypassClamp, bypassClamp, List.map_map]
    refine List.map_congr_left ?_
    intro v _
    by_cases h : v < vb <;> simp [h]
  · intro hall
    rw [bypassClamp]
    conv_rhs => rw [← List.map_id V]
    refine List.map_congr_left ?_
    intro v hv
    simp [not_lt.mpr (hall v hv)]

/-- Witness for C5 at `Vbypass = -1/2`, `V = [-1, 1]`. -/
theorem C5_bypass_clamp_witness :
    (0 : Nat) < 2 ∧ (-1 : ℚ) < -1/2 ∧
    (bypassClamp (-1/2) [-1, 1]).getD 0 0 = -1/2 :=
  ⟨by decide, by norm_num, ((C5_bypass_clamp (-1/2) [-1, 1]).2.1 0 (by decide)).1 (by norm_num)⟩

lemma length_flatIdxs : (substr : Substring') →
    (flatIdxs substr).length = (substr.map List.length).sum
  | [] => rfl
  | c :: ss => by
    simp [flatIdxs] at *
    simpa [flatIdxs] using length_flatIdxs ss

/-! ## C8: pure-series substring -/

/-- C8: For every substring in which no row is crosstied, the substring
curve is the series-combine of exactly that substring's N per-cell curves
(N the number of cell slots of the substring), with `hint_Isc` the mean
short-circuit current across those cells and `hint_Imax` the maximum over
those cells of the cell's current interpolated at its own
reverse-breakdown voltage. -/
theorem C8_pure_series (cells : List PVCell) (substr : Substring')
    (h : allSeriesSub substr = true) :
    calcSubstr cells substr =
      .ok (IVExpr.series ((flatIdxs substr).map IVExpr.cell)
        (Hint.const (qmean ((flatIdxs substr).map (fun i => (cellAt cells i).Isc))))
        (Hint.const (qmax ((flatIdxs substr).map (fun i => IatVrbd (cellAt cells i))))))
    ∧ ((flatIdxs substr).map IVExpr.cell).length = numberCellsOf [substr] := by
  constructor
  · simp [calcSubstr, h, calcSubstrSeries, seriesCombineCells]
  · rw [List.length_map, length_flatIdxs]
    simp [numberCellsOf]

/-- Witness for C8: a 2-cell single-column pure-series substring. -/
theorem C8_pure_series_witness :
    allSeriesSub [[⟨false, 0⟩], [⟨false, 1⟩]] = true ∧
    calcSubstr [⟨1, 0, 6, 1, -10, [6, 0], [0, 1]⟩, ⟨1, 0, 5, 1, -20, [5, 0], [0, 1]⟩]
        [[⟨false, 0⟩], [⟨false, 1⟩]] =
      .ok (IVExpr.series [IVExpr.cell 0, IVExpr.cell 1]
        (Hint.const (11/2)) (Hint.const 6)) :=
  ⟨by decide,
   (C8_pure_series [⟨1, 0, 6, 1, -10, [6, 0], [0, 1]⟩, ⟨1, 0, 5, 1, -20, [5, 0], [0, 1]⟩]
     [[⟨false, 0⟩], [⟨false, 1⟩]] (by decide)).1.trans (by norm_num [flatIdxs, qmean, qmax,
       cellAt, IatVrbd, interp])⟩

/-! ## C7: wrong-length irradiance array -/

/-- C7: Calling `setSuns` with a per-cell irradiance sequence whose length
differs from the number of targeted cells fails with the wrong-length
error, and the module state — the per-cell CellState assignment and all
derived module/substring curves — is returned unchanged. -/
theorem C7_wrong_length_error (recalc : PVCell → ℚ → PVCell) (st : ModuleSt) (qs : List ℚ) :
    (qs.length ≠ st.numberCells →
      setSuns recalc st (.vec qs) none = (some invalidInputMsg, st)) ∧
    (∀ cells : List Nat, qs.length ≠ cells.length →
      setSuns recalc st (.vec qs) (some cells) = (some invalidInputMsg, st)) := by
  constructor
  · intro h; simp [setSuns, h]
  · intro cells h; simp [setSuns, h]

/-- A concrete one-cell module state used by witnesses. -/
def stEx : ModuleSt :=
  ⟨[[[⟨false, 0⟩]]], 1, [0], [⟨1, 0, 6, 1, -10, [6, 0], [0, 1]⟩], -1/2,
   [IVExpr.cell 0], IVExpr.cell 0⟩

/-- Witness for C7: a length-2 irradiance array against a 1-cell module,
and against an explicit 1-cell target list. -/
theorem C7_wrong_length_error_witness :
    ([1, 2] : List ℚ).length ≠ stEx.numberCells ∧
    setSuns (fun c _ => c) stEx (.vec [1, 2]) none = (some invalidInputMsg, stEx) ∧
    setSuns (fun c _ => c) stEx (.vec [1, 2]) (some [0]) = (some invalidInputMsg, stEx) :=
  ⟨by decide,
   (C7_wrong_length_error (fun c _ => c) stEx [1, 2]).1 (by decide),
   (C7_wrong_length_error (fun c _ => c) stEx [1, 2]).2 [0] (by decide)⟩

/-! ## C3: construction does not check index uniqueness/coverage -/

/-- All flat indices of a topology, in traversal order. -/
def flatIdxsAll (cp : CellPos) : List Nat := (cp.map flatIdxs).flatten

/-- The uniqueness-and-coverage invariant asserted by the claim (this
definition follows the spec's words, for comparison with what the
constructor actually checks): every flat index `0..N-1` appears exactly
once across the whole topology. -/
def coverageOK (cp : CellPos) : Bool :=
  ((flatIdxsAll cp).length == numberCellsOf cp) &&
  (List.range (numberCellsOf cp)).all (fun i => (flatIdxsAll cp).count i == 1)

/-- Counterexample to C3: a topology whose two slots both carry index 0
(index 1 never appears), with a matching number of supplied cells,
constructs successfully even though uniqueness and coverage fail. -/
theorem C3_counterexample :
    (pvmoduleInit [[[⟨false, 0⟩], [⟨false, 0⟩]]]
        (.list [⟨1, 0, 6, 1, -10, [6, 0], [0, 1]⟩, ⟨1, 0, 5, 1, -20, [5, 0], [0, 1]⟩])
        (-1/2)).isOk = true
    ∧ coverageOK [[[⟨false, 0⟩], [⟨false, 0⟩]]] = false := by
  constructor
  · rfl
  · decide

/-- C3 amended: module construction checks only that the number of
supplied cell objects equals the number of slots of the topology, and
fails with the cell-count message when they differ; index uniqueness and
coverage are not checked (a topology violating them can construct
successfully, per the counterexample). -/
theorem C3_amended_count_check_only (cp : CellPos) (cs : List PVCell) (vb : ℚ)
    (h : cs.length ≠ numberCellsOf cp) :
    pvmoduleInit cp (.list cs) vb = .error configErrorMsg := by
  simp [pvmoduleInit, h]

/-- Witness for C3 amended: an empty cell list against a 1-slot topology. -/
theorem C3_amended_count_check_only_witness :
    ([] : List PVCell).length ≠ numberCellsOf [[[⟨false, 0⟩]]] ∧
    pvmoduleInit [[[⟨false, 0⟩]]] (.list []) 0 = .error configErrorMsg :=
  ⟨by decide, C3_amended_count_check_only [[[⟨false, 0⟩]]] [] 0 (by decide)⟩

/-! ## C2: the reverse-breakdown bound of the pure-crosstied branch -/

/-- Counterexample to C2: a two-substring module whose first substring is
the single crosstied cell 0 with `VRBD = -10`, while cell 1 (belonging to
the other substring) has `VRBD = -20`.  The pure-crosstied branch passes
`hint_Vmin = -20`, the minimum reverse-breakdown voltage over *all module
cells*, not the substring-global `-10` the claim states. -/
theorem C2_counterexample :
    calcSubstr [⟨1, 0, 6, 1, -10, [6, 0], [0, 1]⟩, ⟨1, 0, 5, 1, -20, [5, 0], [0, 1]⟩]
        [[⟨true, 0⟩]] =
      .ok (IVExpr.series
        [IVExpr.parallel [IVExpr.cell 0] (Hint.const 1) (Hint.const (-20))]
        .selfMeanIsc0 .selfMaxImax)
    ∧ qmin ((flatIdxs [[⟨true, 0⟩]]).map
        (fun i => (cellAt [⟨1, 0, 6, 1, -10, [6, 0], [0, 1]⟩,
                           ⟨1, 0, 5, 1, -20, [5, 0], [0, 1]⟩] i).VRBD)) = -10
    ∧ (Hint.const (-20) : Hint) ≠ Hint.const (-10) := by
  refine ⟨rfl, by decide, by decide⟩

/-- C2 amended: for every pure-crosstied substring, each row's
parallel-combine receives `hint_Vmax` = the maximum open-circuit voltage
among that row's cells and `hint_Vmin` = the minimum reverse-breakdown
voltage across all cells of the *module* (module-wide, not substring-global
and not per-row); the crosstied blocks of the mixed branch do not use a
breakdown-voltage bound at all: each of their row combinations is bounded
by the max/min voltage samples of the very pieces being combined. -/
theorem C2_amended_breakdown_bound (cells : List PVCell) (substr : Substring')
    (hc : allCrosstiedSub substr = true) (hs : allSeriesSub substr = false) :
    calcSubstr cells substr =
      .ok (IVExpr.series ((zipStar substr).map (fun row =>
          IVExpr.parallel ((row.map CellSlot.idx).map IVExpr.cell)
            (Hint.const (qmax ((row.map CellSlot.idx).map (fun i => (cellAt cells i).Voc))))
            (Hint.const (qmin (cells.map PVCell.VRBD)))))
        .selfMeanIsc0 .selfMaxImax)
    ∧ (∀ pcols : List (List IVExpr), combine_parallel_circuits pcols =
        IVExpr.series ((zipStar pcols).map (fun pieces =>
          IVExpr.parallel pieces .selfVmax .selfVmin)) .selfMeanIsc0 .selfMaxImax) := by
  constructor
  · simp [calcSubstr, hc, hs, calcSubstrCrosstied]
  · intro pcols; rfl

/-- Witness for C2 amended: one crosstied column of two cells. -/
theorem C2_amended_breakdown_bound_witness :
    allCrosstiedSub [[⟨true, 0⟩, ⟨true, 1⟩]] = true ∧
    allSeriesSub [[⟨true, 0⟩, ⟨true, 1⟩]] = false ∧
    calcSubstr [⟨1, 0, 6, 1, -10, [6, 0], [0, 1]⟩, ⟨1, 0, 5, 1, -20, [5, 0], [0, 1]⟩]
        [[⟨true, 0⟩, ⟨true, 1⟩]] =
      .ok (IVExpr.series
        [IVExpr.parallel [IVExpr.cell 0] (Hint.const 1) (Hint.const (-20)),
         IVExpr.parallel [IVExpr.cell 1] (Hint.const 1) (Hint.const (-20))]
        .selfMeanIsc0 .selfMaxImax) :=
  ⟨by decide, by decide,
   (C2_amended_breakdown_bound [⟨1, 0, 6, 1, -10, [6, 0], [0, 1]⟩,
      ⟨1, 0, 5, 1, -20, [5, 0], [0, 1]⟩] [[⟨true, 0⟩, ⟨true, 1⟩]]
      (by decide) (by decide)).1.trans (by rfl)⟩

/-! ## C6: mixed-topology boundary error -/

/-- Default slot used only to read the head of a list already known to be
nonempty. -/
def dfltSlot : CellSlot := ⟨true, 0⟩

/-- A column that trips the mixed-branch boundary check: nonempty with a
non-crosstied first row. -/
def badCol (col : Column) : Prop :=
  col ≠ [] ∧ (col.headD dfltSlot).crosstie = false

instance (col : Column) : Decidable (badCol col) := by
  unfold badCol; infer_instance

lemma gscAux_first_nonempty : ∀ (rest : List CellSlot) (acc : List Nat), acc ≠ [] →
    ∃ g gs, gscAux rest acc = g :: gs ∧ g ≠ []
  | [], acc, h => ⟨acc.reverse, [], rfl, by simpa using h⟩
  | c :: rest, acc, h => by
    by_cases hc : c.crosstie
    · exact ⟨acc.reverse, gscAux rest [c.idx], by simp [gscAux, hc], by simpa using h⟩
    · simpa [gscAux, hc] using gscAux_first_nonempty rest (c.idx :: acc) (by simp)

lemma processGroups_error_first (cells : List PVCell) (g : List Nat) (gs : List (List Nat))
    (h : g ≠ []) : processGroups cells (g :: gs) true = .error topologyErrorMsg := by
  have hg : g.isEmpty = false := by simpa using h
  simp [processGroups, hg]

lemma processColumn_error_of_bad (cells : List PVCell) (col : Column) (h : badCol col) :
    processColumn cells col = .error topologyErrorMsg := by
  obtain ⟨hne, hhead⟩ := h
  obtain ⟨c, rest, rfl⟩ := List.exists_cons_of_ne_nil hne
  have hc : c.crosstie = false := hhead
  have h1 : get_series_cells (c :: rest) = gscAux rest [c.idx] := by
    simp [get_series_cells, gscAux, hc]
  obtain ⟨g, gs, hgs, hg⟩ := gscAux_first_nonempty rest [c.idx] (by simp)
  rw [processColumn, h1, hgs]
  exact processGroups_error_first cells g gs hg

lemma processGroups_ok_false (cells : List PVCell) : ∀ (gs : List (List Nat)),
    ∃ l, processGroups cells gs false = .ok l
  | [] => ⟨[], rfl⟩
  | g :: rest => by
    obtain ⟨l, hl⟩ := processGroups_ok_false cells rest
    by_cases hg : g.isEmpty
    · exact ⟨l, by rw [processGroups, if_pos hg]; exact hl⟩
    · refine ⟨(if 1 < g.length then seriesCombineCells cells g
        else IVExpr.cell (g.headD 0)) :: l, ?_⟩
      rw [processGroups, if_neg hg, if_neg (by simp), hl]

lemma processColumn_ok_of_good (cells : List PVCell) (col : Column) (h : ¬ badCol col) :
    ∃ l, processColumn cells col = .ok l := by
  rcases col with _ | ⟨c, rest⟩
  · exact ⟨[], rfl⟩
  · have hc : c.crosstie = true := by
      by_contra hcf
      exact h ⟨by simp, by simpa using hcf⟩
    have h1 : get_series_cells (c :: rest) = [] :: gscAux rest [c.idx] := by
      simp [get_series_cells, gscAux, hc]
    obtain ⟨l, hl⟩ := processGroups_ok_false cells (gscAux rest [c.idx])
    refine ⟨l, ?_⟩
    rw [processColumn, h1, processGroups, if_pos (by rfl)]
    exact hl

lemma mixedStep_error_of_bad (cells : List PVCell) (st : MixedState) (col : Column)
    (h : badCol col) : mixedStep cells st col = .error topologyErrorMsg := by
  rw [mixedStep, processColumn_error_of_bad cells col h]

lemma mixedStep_ok_of_good (cells : List PVCell) (st : MixedState) (col : Column)
    (h : ¬ badCol col) : ∃ st', mixedStep cells st col = .ok st' := by
  obtain ⟨l, hl⟩ := processColumn_ok_of_good cells col h
  exact ⟨mixedStepCore st col l, by rw [mixedStep, hl]⟩

lemma mixedLoop_error_of_bad (cells : List PVCell) : ∀ (cols : List Column) (st : MixedState),
    (∃ c ∈ cols, badCol c) → mixedLoop cells st cols = .error topologyErrorMsg
  | [], st, h => by simp at h
  | c :: cols, st, h => by
    by_cases hc : badCol c
    · rw [mixedLoop, mixedStep_error_of_bad cells st c hc]
    · obtain ⟨st', hst'⟩ := mixedStep_ok_of_good cells st c hc
      rw [mixedLoop, hst']
      obtain ⟨w, hw, hwbad⟩ := h
      rcases List.mem_cons.mp hw with rfl | hmem
      · exact absurd hwbad hc
      · exact mixedLoop_error_of_bad cells cols st' ⟨w, hmem, hwbad⟩

lemma calcSubstrMixed_error_of_bad (cells : List PVCell) (substr : Substring')
    (h : ∃ c ∈ substr, badCol c) :
    calcSubstrMixed cells substr = .error topologyErrorMsg := by
  rw [calcSubstrMixed, mixedLoop_error_of_bad cells substr initMixed h]

lemma processGroups_error_eq (cells : List PVCell) : ∀ (gs : List (List Nat)) (b : Bool)
    (e : String), processGroups cells gs b = .error e → e = topologyErrorMsg
  | [], _, e, h => by simp [processGroups] at h
  | g :: rest, b, e, h => by
    rw [processGroups] at h
    by_cases hg : g.isEmpty
    · rw [if_pos hg] at h
      exact processGroups_error_eq cells rest false e h
    · rw [if_neg hg] at h
      by_cases hb : b = true
      · rw [if_pos hb] at h
        cases h
        rfl
      · rw [if_neg hb] at h
        rcases hrec : processGroups cells rest b with e' | l
        · rw [hrec] at h
          cases h
          exact processGroups_error_eq cells rest b _ hrec
        · rw [hrec] at h
          cases h

lemma mixedStep_error_eq (cells : List PVCell) (st : MixedState) (col : Column) (e : String)
    (h : mixedStep cells st col = .error e) : e = topologyErrorMsg := by
  rcases hpc : processColumn cells col with e' | l
  · rw [mixedStep, hpc] at h
    cases h
    rw [processColumn] at hpc
    exact processGroups_error_eq cells _ true e hpc
  · rw [mixedStep, hpc] at h
    cases h

lemma mixedLoop_error_eq (cells : List PVCell) : ∀ (cols : List Column) (st : MixedState)
    (e : String), mixedLoop cells st cols = .error e → e = topologyErrorMsg
  | [], st, e, h => by simp [mixedLoop] at h
  | c :: cols, st, e, h => by
    rw [mixedLoop] at h
    rcases hstep : mixedStep cells st c with e' | st'
    · rw [hstep] at h
      cases h
      exact mixedStep_error_eq cells st c _ hstep
    · rw [hstep] at h
      exact mixedLoop_error_eq cells cols st' e h

lemma calcSubstr_error_eq (cells : List PVCell) (substr : Substring') (e : String)
    (h : calcSubstr cells substr = .error e) : e = topologyErrorMsg := by
  rw [calcSubstr] at h
  by_cases h1 : allSeriesSub substr
  · rw [if_pos h1] at h; cases h
  · rw [if_neg h1] at h
    by_cases h2 : allCrosstiedSub substr
    · rw [if_pos h2] at h; cases h
    · rw [if_neg h2, calcSubstrMixed] at h
      rcases hloop : mixedLoop cells initMixed substr with e' | st
      · rw [hloop] at h
        cases h
        exact mixedLoop_error_eq cells substr initMixed _ hloop
      · rw [hloop] at h
        cases h

lemma calcSubstrs_error_of_mem (cells : List PVCell) : ∀ (cp : List Substring')
    (s : Substring'), s ∈ cp → calcSubstr cells s = .error topologyErrorMsg →
    calcSubstrs cells cp = .error topologyErrorMsg
  | [], s, hmem, _ => by simp at hmem
  | s0 :: rest, s, hmem, herr => by
    rcases h0 : calcSubstr cells s0 with e | iv
    · have he : e = topologyErrorMsg := calcSubstr_error_eq cells s0 e h0
      rw [calcSubstrs, h0, he]
    · rcases List.mem_cons.mp hmem with rfl | hmem'
      · rw [h0] at herr; cases herr
      · rw [calcSubstrs, h0, calcSubstrs_error_of_mem cells rest s hmem' herr]

/-- C6: During mixed-topology assembly, a substring containing a nonempty
column whose first row is not crosstied (so the leading series run lacks
its crosstied boundary) fails with the topology error "First row and last
rows must be crosstied.", and any module whose topology contains that
substring produces no output at all: the whole `calcMod` fails with the
same error, yielding no partial substring or module curves. -/
theorem C6_boundary_topology_error (cells : List PVCell) (substr : Substring')
    (h1 : allSeriesSub substr = false) (h2 : allCrosstiedSub substr = false)
    (hbad : ∃ col ∈ substr, badCol col) :
    calcSubstr cells substr = .error topologyErrorMsg ∧
    ∀ (vb : ℚ) (cp : CellPos), substr ∈ cp →
      calcMod cells vb cp = .error topologyErrorMsg := by
  have hsub : calcSubstr cells substr = .error topologyErrorMsg := by
    rw [calcSubstr, if_neg (by simp [h1]), if_neg (by simp [h2])]
    exact calcSubstrMixed_error_of_bad cells substr hbad
  refine ⟨hsub, fun vb cp hmem => ?_⟩
  rw [calcMod, calcSubstrs_error_of_mem cells cp substr hmem hsub]

/-- Witness for C6: a one-column substring whose first row is series and
second row crosstied. -/
theorem C6_boundary_topology_error_witness :
    allSeriesSub [[⟨false, 0⟩, ⟨true, 1⟩]] = false ∧
    allCrosstiedSub [[⟨false, 0⟩, ⟨true, 1⟩]] = false ∧
    calcSubstr [⟨1, 0, 6, 1, -10, [6, 0], [0, 1]⟩, ⟨1, 0, 6, 1, -10, [6, 0], [0, 1]⟩]
      [[⟨false, 0⟩, ⟨true, 1⟩]] = .error topologyErrorMsg ∧
    calcMod [⟨1, 0, 6, 1, -10, [6, 0], [0, 1]⟩, ⟨1, 0, 6, 1, -10, [6, 0], [0, 1]⟩]
      (-1/2) [[[⟨false, 0⟩, ⟨true, 1⟩]]] = .error topologyErrorMsg :=
  ⟨by decide, by decide,
   (C6_boundary_topology_error _ [[⟨false, 0⟩, ⟨true, 1⟩]] (by decide) (by decide)
     ⟨[⟨false, 0⟩, ⟨true, 1⟩], by simp, by decide⟩).1,
   (C6_boundary_topology_error _ [[⟨false, 0⟩, ⟨true, 1⟩]] (by decide) (by decide)
     ⟨[⟨false, 0⟩, ⟨true, 1⟩], by simp, by decide⟩).2 (-1/2) _ (by simp)⟩

/-! ## C1 and C10: mixed-branch block boundaries -/

lemma mixedLoop_append (cells : List PVCell) : ∀ (xs ys : List Column) (st : MixedState),
    mixedLoop cells st (xs ++ ys) =
      match mixedLoop cells st xs with
      | .error e => .error e
      | .ok st' => mixedLoop cells st' ys
  | [], ys, st => rfl
  | x :: xs, ys, st => by
    rw [List.cons_append, mixedLoop, mixedLoop]
    rcases mixedStep cells st x with e | st'
    · rfl
    · exact mixedLoop_append cells xs ys st'

/-- The crosstie-flag pattern of a column. -/
def colPattern (c : Column) : List Bool := c.map CellSlot.crosstie

lemma samePattern_of_eq : ∀ (prev col : Column), colPattern prev = colPattern col →
    samePattern prev col = true
  | [], col, _ => rfl
  | p :: ps, [], h => by simp [colPattern] at h
  | p :: ps, c :: cs, h => by
    rw [colPattern, colPattern, List.map_cons, List.map_cons, List.cons.injEq] at h
    have ih := samePattern_of_eq ps cs (by simp [colPattern, h.2])
    simp only [samePattern, List.zip_cons_cons, List.all_cons] at ih ⊢
    simp [h.1, ih]

/-- Number of curves directly combined at the root of a symbolic curve. -/
def topCurveCount : IVExpr → Nat
  | .series l _ _ => l.length
  | .parallel l _ _ => l.length
  | _ => 0

/-- Four identical concrete cells, used by the C1 example topologies. -/
def cells4 : List PVCell :=
  [⟨1, 0, 6, 1, -10, [6, 0], [0, 1]⟩, ⟨1, 0, 6, 1, -10, [6, 0], [0, 1]⟩,
   ⟨1, 0, 6, 1, -10, [6, 0], [0, 1]⟩, ⟨1, 0, 6, 1, -10, [6, 0], [0, 1]⟩]

/-- Six identical concrete cells, used by the C10 example topology. -/
def cells6 : List PVCell :=
  cells4 ++ [⟨1, 0, 6, 1, -10, [6, 0], [0, 1]⟩, ⟨1, 0, 6, 1, -10, [6, 0], [0, 1]⟩]

/-- Counterexample to C1: two columns of two rows, the first with pattern
`[T, T]` (cells 0, 1), the second with pattern `[T, F]` (cells 2, 3).
When the walk reaches the second (differing) column, the block it closes
contains *both* columns' pieces — not only the accumulated columns up to
and excluding the differing one — and the accumulation group resets to the
empty list, not to a group containing the differing column. -/
theorem C1_counterexample :
    mixedLoop cells4 initMixed [[⟨true, 0⟩, ⟨true, 1⟩], [⟨true, 2⟩, ⟨false, 3⟩]] =
      .ok ⟨[combine_parallel_circuits [[IVExpr.cell 0, IVExpr.cell 1],
            [seriesCombineCells cells4 [2, 3]]]], none, []⟩
    ∧ combine_parallel_circuits [[IVExpr.cell 0, IVExpr.cell 1],
        [seriesCombineCells cells4 [2, 3]]]
      ≠ combine_parallel_circuits [[IVExpr.cell 0, IVExpr.cell 1]]
    ∧ ([] : List (List IVExpr)) ≠ [[seriesCombineCells cells4 [2, 3]]]
    ∧ seriesCombineCells cells4 [2, 3] =
        IVExpr.series [IVExpr.cell 2, IVExpr.cell 3] (Hint.const 6) (Hint.const 6) := by
  refine ⟨rfl, fun h => ?_, by simp, ?_⟩
  · have h1 : topCurveCount (combine_parallel_circuits [[IVExpr.cell 0, IVExpr.cell 1],
        [seriesCombineCells cells4 [2, 3]]]) = 1 := rfl
    have h2 : topCurveCount (combine_parallel_circuits [[IVExpr.cell 0, IVExpr.cell 1]]) = 2 := rfl
    rw [h] at h1
    rw [h1] at h2
    cases h2
  · norm_num [seriesCombineCells, qmean, qmax, cellAt, cells4, IatVrbd, interp]

/-- C1 amended: in mixed-topology assembly, whenever the crosstie-flag
pattern of the current column differs row-for-row from the previous
column, the pending group is finalized into a crosstied block consisting
of the accumulated columns up to and *including* the differing column
(whose pieces are appended before the comparison), and the accumulation
group then resets *empty*, with the previous-column marker cleared, so the
next column starts a fresh group. -/
theorem C1_amended_block_includes_boundary (cells : List PVCell) (cols : List Column)
    (col : Column) (st : MixedState) (prev : Column) (pieces : List IVExpr)
    (hloop : mixedLoop cells initMixed cols = .ok st)
    (hprev : st.prev_col = some prev) (hne : prev.isEmpty = false)
    (hdiff : samePattern prev col = false)
    (hcol : processColumn cells col = .ok pieces) :
    mixedLoop cells initMixed (cols ++ [col]) =
      .ok ⟨st.IVall_cols ++ [combine_parallel_circuits (st.IVprev_cols ++ [pieces])],
           none, []⟩ := by
  have hstep : mixedLoop cells st [col] =
      .ok ⟨st.IVall_cols ++ [combine_parallel_circuits (st.IVprev_cols ++ [pieces])],
           none, []⟩ := by
    simp [mixedLoop, mixedStep, hcol, mixedStepCore, hprev, hne, hdiff]
  rw [mixedLoop_append cells cols [col] initMixed, hloop]
  exact hstep

/-- Witness for C1 amended, at the counterexample's columns. -/
theorem C1_amended_block_includes_boundary_witness :
    samePattern [⟨true, 0⟩, ⟨true, 1⟩] [⟨true, 2⟩, ⟨false, 3⟩] = false ∧
    mixedLoop cells4 initMixed ([[⟨true, 0⟩, ⟨true, 1⟩]] ++ [[⟨true, 2⟩, ⟨false, 3⟩]]) =
      .ok ⟨[] ++ [combine_parallel_circuits ([[IVExpr.cell 0, IVExpr.cell 1]] ++
            [[seriesCombineCells cells4 [2, 3]]])], none, []⟩ :=
  ⟨by decide,
   C1_amended_block_includes_boundary cells4 [[⟨true, 0⟩, ⟨true, 1⟩]] [⟨true, 2⟩, ⟨false, 3⟩]
     ⟨[], some [⟨true, 0⟩, ⟨true, 1⟩], [[IVExpr.cell 0, IVExpr.cell 1]]⟩
     [⟨true, 0⟩, ⟨true, 1⟩] [seriesCombineCells cells4 [2, 3]]
     rfl rfl rfl (by decide) rfl⟩

lemma calcSubstrMixed_eq_of_loop (cells : List PVCell) (substr : Substring') (st : MixedState)
    (h : mixedLoop cells initMixed substr = .ok st) :
    calcSubstrMixed cells substr = .ok (calcSubstrMixedEnd st) := by
  rw [calcSubstrMixed, h]

lemma calcSubstrMixedEnd_of_blocks (st : MixedState) (h : st.IVall_cols ≠ []) :
    calcSubstrMixedEnd st = IVExpr.parallel st.IVall_cols .selfVmax .selfVmin := by
  have hb : st.IVall_cols.isEmpty = false := by simpa using h
  rw [calcSubstrMixedEnd, hb]
  rfl

lemma mixedLoop_uniform_trailing (cells : List PVCell) (p : List Bool) :
    ∀ (tr : List Column) (st : MixedState),
    (∀ c ∈ tr, c ≠ [] ∧ (c.headD dfltSlot).crosstie = true ∧ colPattern c = p) →
    (st.prev_col = none ∨ ∃ c, st.prev_col = some c ∧ colPattern c = p) →
    ∃ st', mixedLoop cells st tr = .ok st' ∧ st'.IVall_cols = st.IVall_cols
  | [], st, _, _ => ⟨st, rfl, rfl⟩
  | c :: tr, st, htr, hprev => by
    obtain ⟨hne, hhead, hpat⟩ := htr c (List.mem_cons_self c tr)
    have hgood : ¬ badCol c := fun hb => by rw [hb.2] at hhead; cases hhead
    obtain ⟨l, hl⟩ := processColumn_ok_of_good cells c hgood
    have hcore : (mixedStepCore st c l).IVall_cols = st.IVall_cols ∧
        (mixedStepCore st c l).prev_col = some c := by
      rcases hprev with hnone | ⟨d, hd, hdp⟩
      · simp [mixedStepCore, hnone]
      · by_cases hde : d.isEmpty
        · simp [mixedStepCore, hd, hde]
        · have hsp : samePattern d c = true := samePattern_of_eq d c (hdp.trans hpat.symm)
          simp [mixedStepCore, hd, hde, hsp]
    obtain ⟨st', hst', hblocks⟩ := mixedLoop_uniform_trailing cells p tr (mixedStepCore st c l)
      (fun x hx => htr x (List.mem_cons_of_mem c hx)) (Or.inr ⟨c, hcore.2, hpat⟩)
    refine ⟨st', ?_, by rw [hblocks, hcore.1]⟩
    have : mixedLoop cells st (c :: tr) =
        match mixedStep cells st c with
        | .error e => .error e
        | .ok st₁ => mixedLoop cells st₁ tr := rfl
    rw [this, mixedStep, hl]
    exact hst'

/-- C10: In mixed-topology assembly, once at least one crosstie-pattern
block boundary has been detected, the substring curve is the
parallel-combine of the closed block curves only; columns accumulated
after the last detected boundary contribute nothing: appending any run of
trailing columns with a uniform crosstie pattern (and crosstied first
rows, so no topology error is raised) leaves the substring curve
unchanged. -/
theorem C10_trailing_columns_discarded (cells : List PVCell) (cols tr : List Column)
    (st : MixedState) (p : List Bool)
    (hloop : mixedLoop cells initMixed cols = .ok st)
    (hblocks : st.IVall_cols ≠ [])
    (hprev : st.prev_col = none)
    (htr : ∀ c ∈ tr, c ≠ [] ∧ (c.headD dfltSlot).crosstie = true ∧ colPattern c = p) :
    calcSubstrMixed cells (cols ++ tr) =
      .ok (IVExpr.parallel st.IVall_cols .selfVmax .selfVmin) ∧
    calcSubstrMixed cells cols =
      .ok (IVExpr.parallel st.IVall_cols .selfVmax .selfVmin) := by
  obtain ⟨st', hst', hbl⟩ := mixedLoop_uniform_trailing cells p tr st htr (Or.inl hprev)
  constructor
  · have hfull : mixedLoop cells initMixed (cols ++ tr) = .ok st' := by
      rw [mixedLoop_append cells cols tr initMixed, hloop]
      exact hst'
    rw [calcSubstrMixed_eq_of_loop cells (cols ++ tr) st' hfull,
      calcSubstrMixedEnd_of_blocks st' (by rw [hbl]; exact hblocks), hbl]
  · rw [calcSubstrMixed_eq_of_loop cells cols st hloop, calcSubstrMixedEnd_of_blocks st hblocks]

/-- Witness for C10: the two-column boundary example followed by one
trailing uniform column whose pieces are discarded. -/
theorem C10_trailing_columns_discarded_witness :
    calcSubstrMixed cells6
      ([[⟨true, 0⟩, ⟨true, 1⟩], [⟨true, 2⟩, ⟨false, 3⟩]] ++ [[⟨true, 4⟩, ⟨true, 5⟩]]) =
      .ok (IVExpr.parallel
        [combine_parallel_circuits [[IVExpr.cell 0, IVExpr.cell 1],
          [seriesCombineCells cells6 [2, 3]]]] .selfVmax .selfVmin) ∧
    calcSubstrMixed cells6 [[⟨true, 0⟩, ⟨true, 1⟩], [⟨true, 2⟩, ⟨false, 3⟩]] =
      .ok (IVExpr.parallel
        [combine_parallel_circuits [[IVExpr.cell 0, IVExpr.cell 1],
          [seriesCombineCells cells6 [2, 3]]]] .selfVmax .selfVmin) :=
  C10_trailing_columns_discarded cells6
    [[⟨true, 0⟩, ⟨true, 1⟩], [⟨true, 2⟩, ⟨false, 3⟩]] [[⟨true, 4⟩, ⟨true, 5⟩]]
    ⟨[combine_parallel_circuits [[IVExpr.cell 0, IVExpr.cell 1],
       [seriesCombineCells cells6 [2, 3]]]], none, []⟩
    [true, true] rfl (by simp) rfl
    (by intro c hc; simp at hc; subst hc; exact ⟨by simp, rfl, rfl⟩)

/-! ## C4 and C9: copy-on-write state updates in setSuns -/

lemma getD_set_self (l : List Nat) (i v : Nat) (h : i < l.length) :
    (l.set i v).getD i 0 = v := by
  simp [List.getD, List.getElem?_set, h]

lemma getD_set_ne (l : List Nat) (i j v : Nat) (h : i ≠ j) :
    (l.set i v).getD j 0 = l.getD j 0 := by
  simp [List.getD, List.getElem?_set, h]

lemma getDc_append_left (l₁ l₂ : List PVCell) (i : Nat) (h : i < l₁.length) :
    (l₁ ++ l₂).getD i dfltCell = l₁.getD i dfltCell := by
  simp [List.getD, List.getElem?_append, h]

lemma getDc_append_len (l : List PVCell) (x : PVCell) :
    (l ++ [x]).getD l.length dfltCell = x := by
  simp [List.getD, List.getElem?_append_right]

lemma getDp_append_left (m₁ m₂ : List (Nat × Nat)) (j : Nat) (h : j < m₁.length) :
    (m₁ ++ m₂).getD j (0, 0) = m₁.getD j (0, 0) := by
  simp [List.getD, List.getElem?_append, h]

lemma getDp_append_len (m : List (Nat × Nat)) (e : Nat × Nat) :
    (m ++ [e]).getD m.length (0, 0) = e := by
  simp [List.getD, List.getElem?_append_right]

lemma getDp_eq_getElem (m : List (Nat × Nat)) (j : Nat) (h : j < m.length) :
    m.getD j (0, 0) = m[j] := by
  simp [List.getD, List.getElem?_eq_getElem h]

lemma assocFind_mem (o nr : Nat) : ∀ (m : List (Nat × Nat)),
    assocFind m o = some nr → (o, nr) ∈ m := by
  intro m
  induction m with
  | nil => intro h; simp [assocFind] at h
  | cons p rest ih =>
    intro h
    rw [assocFind] at h
    split at h
    · next hp =>
      injection h with h2
      exact List.mem_cons.mpr (Or.inl (by rw [← hp, ← h2]))
    · next hp => exact List.mem_cons_of_mem _ (ih h)

lemma assocFind_eq_none (o : Nat) (m : List (Nat × Nat)) :
    assocFind m o = none ↔ o ∉ m.map Prod.fst := by
  induction m with
  | nil => simp [assocFind]
  | cons p rest ih =>
    rw [assocFind]
    by_cases hp : p.1 = o
    · simp [hp]
    · simp [hp, ih, Ne.symm hp]

lemma assocFind_append_left (o nr : Nat) (m₂ : List (Nat × Nat)) :
    ∀ (m₁ : List (Nat × Nat)), assocFind m₁ o = some nr →
    assocFind (m₁ ++ m₂) o = some nr := by
  intro m₁
  induction m₁ with
  | nil => intro h; simp [assocFind] at h
  | cons p rest ih =>
    intro h
    rw [assocFind] at h
    rw [List.cons_append, assocFind]
    split at h
    · next hp => rw [if_pos hp]; exact h
    · next hp => rw [if_neg hp]; exact ih h

lemma assocFind_append_right (o : Nat) (m₂ : List (Nat × Nat)) :
    ∀ (m₁ : List (Nat × Nat)), assocFind m₁ o = none →
    assocFind (m₁ ++ m₂) o = assocFind m₂ o := by
  intro m₁
  induction m₁ with
  | nil => intro _; rfl
  | cons p rest ih =>
    intro h
    rw [assocFind] at h
    rw [List.cons_append, assocFind]
    split at h
    · next => cases h
    · next hp => rw [if_neg hp]; exact ih h

/-- The invariant of the copy-on-write loop relative to the initial heap
`h0`: the heap is `h0` followed by exactly the allocations recorded in the
dictionary `m`, in order (entry `j` of `m` maps its old reference to the
fresh reference `h0.length + j`, holding `mk` of the old cell). -/
def CowInv (h0 : List PVCell) (mk : PVCell → PVCell) (heap : List PVCell)
    (m : List (Nat × Nat)) : Prop :=
  heap.length = h0.length + m.length ∧
  (∀ i, i < h0.length → heap.getD i dfltCell = h0.getD i dfltCell) ∧
  (∀ j, j < m.length → (m.getD j (0, 0)).2 = h0.length + j) ∧
  (∀ p ∈ m, p.1 < h0.length ∧ heap.getD p.2 dfltCell = mk (h0.getD p.1 dfltCell))

lemma cowInv_init (h0 : List PVCell) (mk : PVCell → PVCell) : CowInv h0 mk h0 [] :=
  ⟨by simp, fun _ _ => rfl, by simp, by simp⟩

lemma cowInv_snd_bounds {h0 : List PVCell} {mk : PVCell → PVCell} {heap : List PVCell}
    {m : List (Nat × Nat)} (hInv : CowInv h0 mk heap m) {o nr : Nat} (hp : (o, nr) ∈ m) :
    h0.length ≤ nr ∧ nr < heap.length := by
  obtain ⟨j, hj, hval⟩ := List.mem_iff_getElem.mp hp
  have h2 := hInv.2.2.1 j hj
  rw [getDp_eq_getElem m j hj, hval] at h2
  simp only at h2
  constructor
  · omega
  · rw [hInv.1]
    omega

lemma cowInv_mem_val {h0 : List PVCell} {mk : PVCell → PVCell} {heap : List PVCell}
    {m : List (Nat × Nat)} (hInv : CowInv h0 mk heap m) {o nr : Nat} (hp : (o, nr) ∈ m) :
    o < h0.length ∧ heap.getD nr dfltCell = mk (h0.getD o dfltCell) :=
  hInv.2.2.2 (o, nr) hp

lemma cowInv_alloc {h0 : List PVCell} {mk : PVCell → PVCell} {heap : List PVCell}
    {m : List (Nat × Nat)} (hInv : CowInv h0 mk heap m) {oldref : Nat}
    (ho : oldref < h0.length) :
    CowInv h0 mk (heap ++ [mk (heap.getD oldref dfltCell)]) (m ++ [(oldref, heap.length)]) := by
  obtain ⟨hlen, hpre, hsnd, hmem⟩ := hInv
  refine ⟨by simp [hlen, Nat.add_assoc], ?_, ?_, ?_⟩
  · intro i hi
    rw [getDc_append_left _ _ i (by omega)]
    exact hpre i hi
  · intro j hj
    simp only [List.length_append, List.length_cons, List.length_nil] at hj
    by_cases hjm : j < m.length
    · rw [getDp_append_left _ _ j hjm]
      exact hsnd j hjm
    · have hje : j = m.length := by omega
      subst hje
      rw [getDp_append_len]
      simp [hlen]
  · intro p hp
    rcases List.mem_append.mp hp with hp1 | hp2
    · obtain ⟨h1, h2⟩ := hmem p hp1
      have hlt : p.2 < heap.length :=
        (cowInv_snd_bounds ⟨hlen, hpre, hsnd, hmem⟩ (show (p.1, p.2) ∈ m from hp1)).2
      exact ⟨h1, by rw [getDc_append_left _ _ _ hlt]; exact h2⟩
    · have hpe : p = (oldref, heap.length) := by simpa using hp2
      subst hpe
      refine ⟨ho, ?_⟩
      rw [getDc_append_len]
      rw [hpre oldref ho]

lemma cowLoop_exts (mk : PVCell → PVCell) : ∀ (pairs : List (Nat × Nat)) (refs : List Nat)
    (heap : List PVCell) (m : List (Nat × Nat)),
    ∃ hext mext, (cowLoop mk pairs refs heap m).2.1 = heap ++ hext ∧
      (cowLoop mk pairs refs heap m).2.2 = m ++ mext
  | [], refs, heap, m => ⟨[], [], by simp [cowLoop], by simp [cowLoop]⟩
  | (cid, oldref) :: rest, refs, heap, m => by
    rw [cowLoop]
    rcases hfind : assocFind m oldref with _ | nr
    · obtain ⟨hext, mext, h1, h2⟩ := cowLoop_exts mk rest (refs.set cid heap.length)
        (heap ++ [mk (heap.getD oldref dfltCell)]) (m ++ [(oldref, heap.length)])
      exact ⟨[mk (heap.getD oldref dfltCell)] ++ hext, [(oldref, heap.length)] ++ mext,
        h1.trans (List.append_assoc _ _ _), h2.trans (List.append_assoc _ _ _)⟩
    · exact cowLoop_exts mk rest (refs.set cid nr) heap m

lemma cowLoop_inv (h0 : List PVCell) (mk : PVCell → PVCell) : ∀ (pairs : List (Nat × Nat))
    (refs : List Nat) (heap : List PVCell) (m : List (Nat × Nat)),
    CowInv h0 mk heap m → (∀ p ∈ pairs, p.2 < h0.length) →
    CowInv h0 mk (cowLoop mk pairs refs heap m).2.1 (cowLoop mk pairs refs heap m).2.2
  | [], refs, heap, m, hInv, _ => by rw [cowLoop]; exact hInv
  | (cid, oldref) :: rest, refs, heap, m, hInv, hpairs => by
    rw [cowLoop]
    rcases hfind : assocFind m oldref with _ | nr
    · exact cowLoop_inv h0 mk rest _ _ _
        (cowInv_alloc hInv (hpairs (cid, oldref) (List.mem_cons_self _ _)))
        (fun p hp => hpairs p (List.mem_cons_of_mem _ hp))
    · exact cowLoop_inv h0 mk rest _ _ _ hInv
        (fun p hp => hpairs p (List.mem_cons_of_mem _ hp))

lemma cowLoop_keys_nodup (mk : PVCell → PVCell) : ∀ (pairs : List (Nat × Nat))
    (refs : List Nat) (heap : List PVCell) (m : List (Nat × Nat)),
    (m.map Prod.fst).Nodup →
    ((cowLoop mk pairs refs heap m).2.2.map Prod.fst).Nodup
  | [], refs, heap, m, hnd => by rw [cowLoop]; exact hnd
  | (cid, oldref) :: rest, refs, heap, m, hnd => by
    rw [cowLoop]
    rcases hfind : assocFind m oldref with _ | nr
    · refine cowLoop_keys_nodup mk rest _ _ _ ?_
      rw [List.map_append]
      refine List.Nodup.append hnd (by simp) ?_
      intro a ha hb
      have hae : a = oldref := by simpa using hb
      rw [hae] at ha
      exact ((assocFind_eq_none oldref m).mp hfind) ha
    · exact cowLoop_keys_nodup mk rest _ _ _ hnd

lemma cowLoop_keys_finset (mk : PVCell → PVCell) : ∀ (pairs : List (Nat × Nat))
    (refs : List Nat) (heap : List PVCell) (m : List (Nat × Nat)),
    ((cowLoop mk pairs refs heap m).2.2.map Prod.fst).toFinset =
      (m.map Prod.fst).toFinset ∪ (pairs.map Prod.snd).toFinset
  | [], refs, heap, m => by rw [cowLoop]; simp
  | (cid, oldref) :: rest, refs, heap, m => by
    rw [cowLoop]
    rcases hfind : assocFind m oldref with _ | nr
    · have hrec := cowLoop_keys_finset mk rest (refs.set cid heap.length)
        (heap ++ [mk (heap.getD oldref dfltCell)]) (m ++ [(oldref, heap.length)])
      refine hrec.trans ?_
      ext a
      simp only [List.map_append, List.toFinset_append, List.map_cons, List.toFinset_cons,
        Finset.mem_union, List.mem_toFinset, List.map_nil, List.toFinset_nil,
        Finset.mem_insert, List.mem_singleton]
      constructor
      · rintro ((h | h) | h)
        · exact Or.inl h
        · exact Or.inr (Or.inl (by simpa using h))
        · exact Or.inr (Or.inr h)
      · rintro (h | h | h)
        · exact Or.inl (Or.inl h)
        · exact Or.inl (Or.inr (by simpa using h))
        · exact Or.inr h
    · have hrec := cowLoop_keys_finset mk rest (refs.set cid nr) heap m
      refine hrec.trans ?_
      have hmemo : oldref ∈ m.map Prod.fst :=
        List.mem_map.mpr ⟨(oldref, nr), assocFind_mem oldref nr m hfind, rfl⟩
      ext a
      simp only [Finset.mem_union, List.mem_toFinset, List.map_cons, List.toFinset_cons,
        Finset.mem_insert]
      constructor
      · rintro (h | h)
        · exact Or.inl h
        · exact Or.inr (Or.inr h)
      · rintro (h | h | h)
        · exact Or.inl h
        · exact Or.inl (h ▸ hmemo)
        · exact Or.inr h

lemma cowLoop_refs_len (mk : PVCell → PVCell) : ∀ (pairs : List (Nat × Nat))
    (refs : List Nat) (heap : List PVCell) (m : List (Nat × Nat)),
    (cowLoop mk pairs refs heap m).1.length = refs.length
  | [], refs, heap, m => by rw [cowLoop]
  | (cid, oldref) :: rest, refs, heap, m => by
    rw [cowLoop]
    rcases hfind : assocFind m oldref with _ | nr
    · exact (cowLoop_refs_len mk rest _ _ _).trans (by simp)
    · exact (cowLoop_refs_len mk rest _ _ _).trans (by simp)

lemma cowLoop_refs_untouched (mk : PVCell → PVCell) : ∀ (pairs : List (Nat × Nat))
    (refs : List Nat) (heap : List PVCell) (m : List (Nat × Nat)) (cid' : Nat),
    cid' ∉ pairs.map Prod.fst →
    (cowLoop mk pairs refs heap m).1.getD cid' 0 = refs.getD cid' 0
  | [], refs, heap, m, cid', _ => by rw [cowLoop]
  | (cid, oldref) :: rest, refs, heap, m, cid', hni => by
    have hne : cid ≠ cid' := fun he => hni (by simp [he])
    have hnr : cid' ∉ rest.map Prod.fst := fun hr => hni (by simp [hr])
    rw [cowLoop]
    rcases hfind : assocFind m oldref with _ | nr
    · exact (cowLoop_refs_untouched mk rest _ _ _ cid' hnr).trans
        (getD_set_ne refs cid cid' heap.length hne)
    · exact (cowLoop_refs_untouched mk rest _ _ _ cid' hnr).trans
        (getD_set_ne refs cid cid' nr hne)

lemma cowLoop_refs_target (mk : PVCell → PVCell) : ∀ (pairs : List (Nat × Nat))
    (refs : List Nat) (heap : List PVCell) (m : List (Nat × Nat)),
    (∀ p ∈ pairs, p.1 < refs.length) →
    (∀ p ∈ pairs, ∀ q ∈ pairs, p.1 = q.1 → p.2 = q.2) →
    ∀ cid' oldref', (cid', oldref') ∈ pairs →
      ∃ nr, assocFind (cowLoop mk pairs refs heap m).2.2 oldref' = some nr ∧
        (cowLoop mk pairs refs heap m).1.getD cid' 0 = nr
  | [], refs, heap, m, _, _ => by intro cid' oldref' hp; simp at hp
  | (cid, oldref) :: rest, refs, heap, m, hcid, hcons => by
    intro cid' oldref' hp
    have hcidrest : ∀ q ∈ rest, q.1 < refs.length :=
      fun q hq => hcid q (List.mem_cons_of_mem _ hq)
    have hconsrest : ∀ p' ∈ rest, ∀ q ∈ rest, p'.1 = q.1 → p'.2 = q.2 :=
      fun p' hp' q hq => hcons p' (List.mem_cons_of_mem _ hp') q (List.mem_cons_of_mem _ hq)
    rw [cowLoop]
    rcases hfind : assocFind m oldref with _ | nr
    · rcases List.mem_cons.mp hp with heq | hprest
      · rw [Prod.mk.injEq] at heq
        obtain ⟨rfl, rfl⟩ := heq
        by_cases hmem : cid' ∈ rest.map Prod.fst
        · obtain ⟨q, hq, hq1⟩ := List.mem_map.mp hmem
          have hq2 : q.2 = oldref' :=
            hcons q (List.mem_cons_of_mem _ hq) (cid', oldref') (List.mem_cons_self _ _)
              (by rw [hq1])
          obtain ⟨nr', h1, h2⟩ := cowLoop_refs_target mk rest
            (refs.set cid' heap.length) (heap ++ [mk (heap.getD oldref' dfltCell)])
            (m ++ [(oldref', heap.length)]) (by simpa using hcidrest) hconsrest q.1 q.2
            (by exact hq)
          rw [hq2] at h1
          rw [hq1] at h2
          exact ⟨nr', h1, h2⟩
        · have huntouched := cowLoop_refs_untouched mk rest
            (refs.set cid' heap.length) (heap ++ [mk (heap.getD oldref' dfltCell)])
            (m ++ [(oldref', heap.length)]) cid' hmem
          obtain ⟨hext, mext, _, hm⟩ := cowLoop_exts mk rest
            (refs.set cid' heap.length) (heap ++ [mk (heap.getD oldref' dfltCell)])
            (m ++ [(oldref', heap.length)])
          refine ⟨heap.length, ?_, ?_⟩
          · rw [hm, List.append_assoc]
            rw [assocFind_append_right _ _ m hfind]
            rw [List.cons_append, assocFind, if_pos rfl]
          · rw [huntouched]
            exact getD_set_self refs cid' heap.length
              (hcid (cid', oldref') (List.mem_cons_self _ _))
      · exact cowLoop_refs_target mk rest (refs.set cid heap.length)
          (heap ++ [mk (heap.getD oldref dfltCell)]) (m ++ [(oldref, heap.length)])
          (by simpa using hcidrest) hconsrest cid' oldref' hprest
    · rcases List.mem_cons.mp hp with heq | hprest
      · rw [Prod.mk.injEq] at heq
        obtain ⟨rfl, rfl⟩ := heq
        by_cases hmem : cid' ∈ rest.map Prod.fst
        · obtain ⟨q, hq, hq1⟩ := List.mem_map.mp hmem
          have hq2 : q.2 = oldref' :=
            hcons q (List.mem_cons_of_mem _ hq) (cid', oldref') (List.mem_cons_self _ _)
              (by rw [hq1])
          obtain ⟨nr', h1, h2⟩ := cowLoop_refs_target mk rest (refs.set cid' nr) heap m
            (by simpa using hcidrest) hconsrest q.1 q.2 (by exact hq)
          rw [hq2] at h1
          rw [hq1] at h2
          exact ⟨nr', h1, h2⟩
        · have huntouched := cowLoop_refs_untouched mk rest (refs.set cid' nr) heap m cid' hmem
          obtain ⟨hext, mext, _, hm⟩ := cowLoop_exts mk rest (refs.set cid' nr) heap m
          refine ⟨nr, ?_, ?_⟩
          · rw [hm]
            exact assocFind_append_left oldref' nr mext m hfind
          · rw [huntouched]
            exact getD_set_self refs cid' nr (hcid (cid', oldref') (List.mem_cons_self _ _))
      · exact cowLoop_refs_target mk rest (refs.set cid nr) heap m
          (by simpa using hcidrest) hconsrest cid' oldref' hprest

lemma cowLoop_refs_bound (h0 : List PVCell) (mk : PVCell → PVCell) :
    ∀ (pairs : List (Nat × Nat)) (refs : List Nat) (heap : List PVCell)
    (m : List (Nat × Nat)),
    CowInv h0 mk heap m → (∀ p ∈ pairs, p.2 < h0.length) →
    ∀ i, i < refs.length → refs.getD i 0 < heap.length →
    (cowLoop mk pairs refs heap m).1.getD i 0 < (cowLoop mk pairs refs heap m).2.1.length
  | [], refs, heap, m, _, _ => by intro i _ hb; rw [cowLoop]; exact hb
  | (cid, oldref) :: rest, refs, heap, m, hInv, hpairs => by
    intro i hi hb
    have hpairsrest : ∀ p ∈ rest, p.2 < h0.length :=
      fun p hp => hpairs p (List.mem_cons_of_mem _ hp)
    rw [cowLoop]
    rcases hfind : assocFind m oldref with _ | nr
    · have hInv' := cowInv_alloc hInv (hpairs (cid, oldref) (List.mem_cons_self _ _))
      refine cowLoop_refs_bound h0 mk rest _ _ _ hInv' hpairsrest i (by simpa using hi) ?_
      by_cases hic : i = cid
      · subst hic
        rw [getD_set_self refs i heap.length hi]
        simp
      · rw [getD_set_ne refs cid i heap.length (Ne.symm hic)]
        simp only [List.length_append, List.length_cons, List.length_nil]
        omega
    · have hnr : nr < heap.length :=
        (cowInv_snd_bounds hInv (assocFind_mem oldref nr m hfind)).2
      refine cowLoop_refs_bound h0 mk rest _ _ _ hInv hpairsrest i (by simpa using hi) ?_
      by_cases hic : i = cid
      · subst hic
        rw [getD_set_self refs i nr hi]
        exact hnr
      · rw [getD_set_ne refs cid i nr (Ne.symm hic)]
        exact hb

lemma getDn_eq_getElem (l : List Nat) (i : Nat) (h : i < l.length) : l.getD i 0 = l[i] := by
  simp [List.getD, List.getElem?_eq_getElem h]

/-- Full specification of the scalar explicit-cells path of `setSuns`
(lines 258-269): list length preserved; exactly one allocation per
distinct targeted old reference; untargeted indices unchanged; targeted
indices that shared an old object share the new object; every targeted
index points at a fresh cell holding the recomputed old cell; reference
bounds preserved. -/
lemma setSunsScalarSubset_spec (recalc : PVCell → ℚ → PVCell) (Ee : ℚ) (cells : List Nat)
    (refs : List Nat) (heap : List PVCell)
    (hcid : ∀ cid ∈ cells, cid < refs.length)
    (hre : ∀ cid ∈ cells, refs.getD cid 0 < heap.length) :
    (setSunsScalarSubset recalc Ee cells refs heap).1.length = refs.length ∧
    (setSunsScalarSubset recalc Ee cells refs heap).2.length =
      heap.length + (cells.map (fun cid => refs.getD cid 0)).toFinset.card ∧
    (∀ cid, cid ∉ cells →
      (setSunsScalarSubset recalc Ee cells refs heap).1.getD cid 0 = refs.getD cid 0) ∧
    (∀ i ∈ cells, ∀ j ∈ cells, refs.getD i 0 = refs.getD j 0 →
      (setSunsScalarSubset recalc Ee cells refs heap).1.getD i 0 =
        (setSunsScalarSubset recalc Ee cells refs heap).1.getD j 0) ∧
    (∀ i ∈ cells, heap.length ≤ (setSunsScalarSubset recalc Ee cells refs heap).1.getD i 0 ∧
      (setSunsScalarSubset recalc Ee cells refs heap).1.getD i 0 <
        (setSunsScalarSubset recalc Ee cells refs heap).2.length ∧
      (setSunsScalarSubset recalc Ee cells refs heap).2.getD
          ((setSunsScalarSubset recalc Ee cells refs heap).1.getD i 0) dfltCell =
        recalc (heap.getD (refs.getD i 0) dfltCell) Ee) ∧
    (∀ i, i < refs.length → refs.getD i 0 < heap.length →
      (setSunsScalarSubset recalc Ee cells refs heap).1.getD i 0 <
        (setSunsScalarSubset recalc Ee cells refs heap).2.length) := by
  have hpairs : ∀ p ∈ cells.map (fun cid => (cid, refs.getD cid 0)), p.2 < heap.length := by
    intro p hp
    obtain ⟨cid, hcm, rfl⟩ := List.mem_map.mp hp
    exact hre cid hcm
  have hcid' : ∀ p ∈ cells.map (fun cid => (cid, refs.getD cid 0)), p.1 < refs.length := by
    intro p hp
    obtain ⟨cid, hcm, rfl⟩ := List.mem_map.mp hp
    exact hcid cid hcm
  have hcons : ∀ p ∈ cells.map (fun cid => (cid, refs.getD cid 0)),
      ∀ q ∈ cells.map (fun cid => (cid, refs.getD cid 0)), p.1 = q.1 → p.2 = q.2 := by
    intro p hp q hq h1
    obtain ⟨ci, _, rfl⟩ := List.mem_map.mp hp
    obtain ⟨cj, _, rfl⟩ := List.mem_map.mp hq
    simp only at h1
    simp [h1]
  simp only [setSunsScalarSubset]
  have hInv' := cowLoop_inv heap (fun c => recalc c Ee)
    (cells.map (fun cid => (cid, refs.getD cid 0))) refs heap []
    (cowInv_init heap (fun c => recalc c Ee)) hpairs
  have hnd' := cowLoop_keys_nodup (fun c => recalc c Ee)
    (cells.map (fun cid => (cid, refs.getD cid 0))) refs heap [] (by simp)
  have hfin := cowLoop_keys_finset (fun c => recalc c Ee)
    (cells.map (fun cid => (cid, refs.getD cid 0))) refs heap []
  refine ⟨?_, ?_, ?_, ?_, ?_, ?_⟩
  · exact cowLoop_refs_len _ _ _ _ _
  · rw [hInv'.1]
    congr 1
    have h1 := List.toFinset_card_of_nodup hnd'
    rw [hfin] at h1
    rw [← List.length_map _ Prod.fst, ← h1]
    simp only [List.map_nil, List.toFinset_nil, Finset.empty_union, List.map_map]
    rfl
  · intro cid hni
    refine cowLoop_refs_untouched _ _ _ _ _ cid ?_
    simpa [List.map_map, Function.comp] using hni
  · intro i hi j hj hsame
    obtain ⟨nri, h1i, h2i⟩ := cowLoop_refs_target (fun c => recalc c Ee)
      (cells.map (fun cid => (cid, refs.getD cid 0))) refs heap [] hcid' hcons
      i (refs.getD i 0) (List.mem_map.mpr ⟨i, hi, rfl⟩)
    obtain ⟨nrj, h1j, h2j⟩ := cowLoop_refs_target (fun c => recalc c Ee)
      (cells.map (fun cid => (cid, refs.getD cid 0))) refs heap [] hcid' hcons
      j (refs.getD j 0) (List.mem_map.mpr ⟨j, hj, rfl⟩)
    rw [hsame] at h1i
    rw [h1i] at h1j
    injection h1j with hnr
    rw [h2i, h2j, hnr]
  · intro i hi
    obtain ⟨nr, h1, h2⟩ := cowLoop_refs_target (fun c => recalc c Ee)
      (cells.map (fun cid => (cid, refs.getD cid 0))) refs heap [] hcid' hcons
      i (refs.getD i 0) (List.mem_map.mpr ⟨i, hi, rfl⟩)
    have hmem := assocFind_mem _ _ _ h1
    have hb := cowInv_snd_bounds hInv' hmem
    have hv := (cowInv_mem_val hInv' hmem).2
    refine ⟨?_, ?_, ?_⟩
    · rw [h2]; exact hb.1
    · rw [h2]; exact hb.2
    · rw [h2]; exact hv
  · intro i hi hb
    exact cowLoop_refs_bound heap (fun c => recalc c Ee) _ refs heap []
      (cowInv_init heap (fun c => recalc c Ee)) hpairs i hi hb

lemma getDc_set_self (l : List PVCell) (i : Nat) (v : PVCell) (h : i < l.length) :
    (l.set i v).getD i dfltCell = v := by
  simp [List.getD, List.getElem?_set, h]

lemma getDc_set_ne (l : List PVCell) (i j : Nat) (v : PVCell) (h : i ≠ j) :
    (l.set i v).getD j dfltCell = l.getD j dfltCell := by
  simp [List.getD, List.getElem?_set, h]

lemma cowInv_snds_nodup {h0 : List PVCell} {mk : PVCell → PVCell} {heap : List PVCell}
    {m : List (Nat × Nat)} (hInv : CowInv h0 mk heap m) : (m.map Prod.snd).Nodup := by
  have hmeq : m.map Prod.snd = (List.range m.length).map (fun j => h0.length + j) := by
    refine List.ext_getElem (by simp) ?_
    intro j hj1 hj2
    simp only [List.getElem_map, List.getElem_range]
    rw [← getDp_eq_getElem m j (by simpa using hj1)]
    exact hInv.2.2.1 j (by simpa using hj1)
  rw [hmeq]
  exact List.Nodup.map (fun a b hab => by omega) (List.nodup_range _)

lemma recalcPass_spec (f : PVCell → PVCell) : ∀ (m : List (Nat × Nat)) (h : List PVCell),
    (∀ p ∈ m, p.2 < h.length) → (m.map Prod.snd).Nodup →
    (m.foldl (fun hh p => hh.set p.2 (f (hh.getD p.2 dfltCell))) h).length = h.length ∧
    (∀ o nr, (o, nr) ∈ m →
      (m.foldl (fun hh p => hh.set p.2 (f (hh.getD p.2 dfltCell))) h).getD nr dfltCell =
        f (h.getD nr dfltCell)) ∧
    (∀ rr, rr ∉ m.map Prod.snd →
      (m.foldl (fun hh p => hh.set p.2 (f (hh.getD p.2 dfltCell))) h).getD rr dfltCell =
        h.getD rr dfltCell)
  | [], h, _, _ => ⟨rfl, by intro o nr hp; simp at hp, fun _ _ => rfl⟩
  | (o₀, nr₀) :: rest, h, hb, hnd => by
    have hnr₀ : nr₀ < h.length := hb (o₀, nr₀) (List.mem_cons_self _ _)
    have hnd' : (rest.map Prod.snd).Nodup := (List.nodup_cons.mp hnd).2
    have hnotin : nr₀ ∉ rest.map Prod.snd := (List.nodup_cons.mp hnd).1
    have hb' : ∀ p ∈ rest, p.2 < (h.set nr₀ (f (h.getD nr₀ dfltCell))).length := by
      intro p hp
      simpa using hb p (List.mem_cons_of_mem _ hp)
    obtain ⟨L, Mid, U⟩ := recalcPass_spec f rest (h.set nr₀ (f (h.getD nr₀ dfltCell))) hb' hnd'
    rw [List.foldl_cons]
    refine ⟨L.trans (by simp), ?_, ?_⟩
    · intro o nr hp
      rcases List.mem_cons.mp hp with heq | hprest
      · rw [Prod.mk.injEq] at heq
        obtain ⟨rfl, rfl⟩ := heq
        rw [U nr hnotin]
        exact getDc_set_self h nr (f (h.getD nr dfltCell)) hnr₀
      · have hne : nr ≠ nr₀ := by
          intro he
          exact hnotin (he ▸ List.mem_map.mpr ⟨(o, nr), hprest, rfl⟩)
        rw [Mid o nr hprest, getDc_set_ne h nr₀ nr _ (Ne.symm hne)]
    · intro rr hrr
      have hrr1 : rr ≠ nr₀ := fun he => hrr (by simp [he])
      have hrr2 : rr ∉ rest.map Prod.snd := fun he => hrr (by simp [he])
      rw [U rr hrr2, getDc_set_ne h nr₀ rr _ (Ne.symm hrr1)]

lemma mem_enum_pair (refs : List Nat) (i : Nat) (hi : i < refs.length) :
    (i, refs.getD i 0) ∈ refs.enum := by
  refine List.mem_iff_getElem.mpr ⟨i, by simpa using hi, ?_⟩
  rw [List.getElem_enum]
  rw [getDn_eq_getElem refs i hi]

lemma enum_pair_char (refs : List Nat) : ∀ p ∈ refs.enum,
    p.1 < refs.length ∧ p.2 = refs.getD p.1 0 := by
  intro p hp
  obtain ⟨k, hk, hval⟩ := List.mem_iff_getElem.mp hp
  have hk' : k < refs.length := by simpa using hk
  rw [List.getElem_enum] at hval
  subst hval
  exact ⟨hk', (getDn_eq_getElem refs k hk').symm⟩

/-- Full specification of the scalar `cells is None` path of `setSuns`
(lines 236-249): one copy per distinct old object, irradiance applied once
per copy, sharing preserved. -/
lemma setSunsScalarNone_spec (recalc : PVCell → ℚ → PVCell) (Ee : ℚ)
    (refs : List Nat) (heap : List PVCell)
    (hre : ∀ i, i < refs.length → refs.getD i 0 < heap.length) :
    (setSunsScalarNone recalc Ee refs heap).1.length = refs.length ∧
    (setSunsScalarNone recalc Ee refs heap).2.length = heap.length + refs.toFinset.card ∧
    (∀ i j, i < refs.length → j < refs.length → refs.getD i 0 = refs.getD j 0 →
      (setSunsScalarNone recalc Ee refs heap).1.getD i 0 =
        (setSunsScalarNone recalc Ee refs heap).1.getD j 0) ∧
    (∀ i, i < refs.length →
      heap.length ≤ (setSunsScalarNone recalc Ee refs heap).1.getD i 0 ∧
      (setSunsScalarNone recalc Ee refs heap).1.getD i 0 <
        (setSunsScalarNone recalc Ee refs heap).2.length ∧
      (setSunsScalarNone recalc Ee refs heap).2.getD
          ((setSunsScalarNone recalc Ee refs heap).1.getD i 0) dfltCell =
        recalc (heap.getD (refs.getD i 0) dfltCell) Ee) := by
  simp only [setSunsScalarNone]
  have hpairs : ∀ p ∈ refs.enum, p.2 < heap.length := by
    intro p hp
    obtain ⟨h1, h2⟩ := enum_pair_char refs p hp
    rw [h2]
    exact hre p.1 h1
  have hcid' : ∀ p ∈ refs.enum, p.1 < refs.length :=
    fun p hp => (enum_pair_char refs p hp).1
  have hcons : ∀ p ∈ refs.enum, ∀ q ∈ refs.enum, p.1 = q.1 → p.2 = q.2 := by
    intro p hp q hq h1
    rw [(enum_pair_char refs p hp).2, (enum_pair_char refs q hq).2, h1]
  have hInvA := cowLoop_inv heap id refs.enum refs heap [] (cowInv_init heap id) hpairs
  have hndA := cowLoop_keys_nodup id refs.enum refs heap [] (by simp)
  have hfinA := cowLoop_keys_finset id refs.enum refs heap []
  have hsnds := cowInv_snds_nodup hInvA
  have hsndlt : ∀ p ∈ (cowLoop id refs.enum refs heap []).2.2,
      p.2 < (cowLoop id refs.enum refs heap []).2.1.length :=
    fun p hp => (cowInv_snd_bounds hInvA (show (p.1, p.2) ∈ _ from hp)).2
  obtain ⟨PL, PMid, PU⟩ := recalcPass_spec (fun c => recalc c Ee)
    (cowLoop id refs.enum refs heap []).2.2 (cowLoop id refs.enum refs heap []).2.1
    hsndlt hsnds
  refine ⟨?_, ?_, ?_, ?_⟩
  · exact cowLoop_refs_len _ _ _ _ _
  · refine PL.trans ?_
    rw [hInvA.1]
    congr 1
    have h1 := List.toFinset_card_of_nodup hndA
    rw [hfinA] at h1
    rw [← List.length_map _ Prod.fst, ← h1]
    simp [List.enum_map_snd]
  · intro i j hi hj hsame
    obtain ⟨nri, h1i, h2i⟩ := cowLoop_refs_target id refs.enum refs heap [] hcid' hcons
      i (refs.getD i 0) (mem_enum_pair refs i hi)
    obtain ⟨nrj, h1j, h2j⟩ := cowLoop_refs_target id refs.enum refs heap [] hcid' hcons
      j (refs.getD j 0) (mem_enum_pair refs j hj)
    rw [hsame] at h1i
    rw [h1i] at h1j
    injection h1j with hnr
    rw [h2i, h2j, hnr]
  · intro i hi
    obtain ⟨nr, h1, h2⟩ := cowLoop_refs_target id refs.enum refs heap [] hcid' hcons
      i (refs.getD i 0) (mem_enum_pair refs i hi)
    have hmem := assocFind_mem _ _ _ h1
    have hb := cowInv_snd_bounds hInvA hmem
    have hv := (cowInv_mem_val hInvA hmem).2
    refine ⟨?_, ?_, ?_⟩
    · rw [h2]; exact hb.1
    · rw [h2, PL]; exact hb.2
    · rw [h2, PMid _ nr hmem, hv]
      rfl

lemma finishSetSuns_refs_heap (st : ModuleSt) :
    (finishSetSuns st).2.refs = st.refs ∧ (finishSetSuns st).2.heap = st.heap := by
  rw [finishSetSuns]
  rcases calcMod (derefCells st.refs st.heap) st.Vbypass st.cell_pos with e | d
  · exact ⟨rfl, rfl⟩
  · exact ⟨rfl, rfl⟩

/-- C4: After `setSuns` with a scalar irradiance value — with an explicit
cell list or with `cells=None` — every targeted cell index that previously
referenced the same cell object references one single identical
newly-computed cell object afterwards (freshly allocated, holding the
recomputation of the prior shared cell); exactly one new cell is computed
per distinct prior shared object (the heap grows by the number of distinct
targeted old references); and cells not targeted keep their existing
reference unchanged. -/
theorem C4_scalar_copy_on_write (recalc : PVCell → ℚ → PVCell) (q : ℚ) (st : ModuleSt)
    (cells : List Nat)
    (hcid : ∀ cid ∈ cells, cid < st.refs.length)
    (hre : ∀ i, i < st.refs.length → st.refs.getD i 0 < st.heap.length) :
    (∀ i ∈ cells, ∀ j ∈ cells, st.refs.getD i 0 = st.refs.getD j 0 →
      (setSuns recalc st (.scalar q) (some cells)).2.refs.getD i 0 =
        (setSuns recalc st (.scalar q) (some cells)).2.refs.getD j 0) ∧
    (∀ i ∈ cells,
      st.heap.length ≤ (setSuns recalc st (.scalar q) (some cells)).2.refs.getD i 0 ∧
      (setSuns recalc st (.scalar q) (some cells)).2.heap.getD
          ((setSuns recalc st (.scalar q) (some cells)).2.refs.getD i 0) dfltCell =
        recalc (st.heap.getD (st.refs.getD i 0) dfltCell) q) ∧
    (setSuns recalc st (.scalar q) (some cells)).2.heap.length =
      st.heap.length + (cells.map (fun cid => st.refs.getD cid 0)).toFinset.card ∧
    (∀ cid, cid ∉ cells →
      (setSuns recalc st (.scalar q) (some cells)).2.refs.getD cid 0 =
        st.refs.getD cid 0) ∧
    (∀ i j, i < st.refs.length → j < st.refs.length →
      st.refs.getD i 0 = st.refs.getD j 0 →
      (setSuns recalc st (.scalar q) none).2.refs.getD i 0 =
        (setSuns recalc st (.scalar q) none).2.refs.getD j 0) ∧
    (∀ i, i < st.refs.length →
      st.heap.length ≤ (setSuns recalc st (.scalar q) none).2.refs.getD i 0 ∧
      (setSuns recalc st (.scalar q) none).2.heap.getD
          ((setSuns recalc st (.scalar q) none).2.refs.getD i 0) dfltCell =
        recalc (st.heap.getD (st.refs.getD i 0) dfltCell) q) ∧
    (setSuns recalc st (.scalar q) none).2.heap.length =
      st.heap.length + st.refs.toFinset.card := by
  have hsub := setSunsScalarSubset_spec recalc q cells st.refs st.heap hcid
    (fun cid hc => hre cid (hcid cid hc))
  have hnone := setSunsScalarNone_spec recalc q st.refs st.heap hre
  have e1 : (setSuns recalc st (.scalar q) (some cells)).2.refs =
      (setSunsScalarSubset recalc q cells st.refs st.heap).1 := by
    simp only [setSuns]
    exact (finishSetSuns_refs_heap _).1
  have e2 : (setSuns recalc st (.scalar q) (some cells)).2.heap =
      (setSunsScalarSubset recalc q cells st.refs st.heap).2 := by
    simp only [setSuns]
    exact (finishSetSuns_refs_heap _).2
  have e3 : (setSuns recalc st (.scalar q) none).2.refs =
      (setSunsScalarNone recalc q st.refs st.heap).1 := by
    simp only [setSuns]
    exact (finishSetSuns_refs_heap _).1
  have e4 : (setSuns recalc st (.scalar q) none).2.heap =
      (setSunsScalarNone recalc q st.refs st.heap).2 := by
    simp only [setSuns]
    exact (finishSetSuns_refs_heap _).2
  rw [e1, e2, e3, e4]
  refine ⟨hsub.2.2.2.1, ?_, hsub.2.1, hsub.2.2.1, hnone.2.2.1, ?_, hnone.2.1⟩
  · intro i hi
    obtain ⟨hle, _, hval⟩ := hsub.2.2.2.2.1 i hi
    exact ⟨hle, hval⟩
  · intro i hi
    obtain ⟨hle, _, hval⟩ := hnone.2.2.2 i hi
    exact ⟨hle, hval⟩

/-- Concrete recomputation function for witnesses: set the irradiance. -/
def recalcEx (c : PVCell) (q : ℚ) : PVCell := { c with Ee := q }

/-- A concrete three-cell module whose indices 0 and 1 share one cell
object (heap reference 0) while index 2 has its own (reference 1). -/
def stSh : ModuleSt :=
  ⟨[[[⟨false, 0⟩], [⟨false, 1⟩], [⟨false, 2⟩]]], 3, [0, 0, 1],
   [⟨1, 0, 6, 1, -10, [6, 0], [0, 1]⟩, ⟨1, 0, 5, 1, -20, [5, 0], [0, 1]⟩], -1/2,
   [], IVExpr.cell 0⟩

/-- Witness for C4 at `stSh`: targeting cells 0 and 1 (which share
reference 0) with scalar irradiance 2 keeps them shared, adds exactly one
heap cell, and leaves cell 2 untouched. -/
theorem C4_scalar_copy_on_write_witness :
    (setSuns recalcEx stSh (.scalar 2) (some [0, 1])).2.refs.getD 0 0 =
      (setSuns recalcEx stSh (.scalar 2) (some [0, 1])).2.refs.getD 1 0 ∧
    (setSuns recalcEx stSh (.scalar 2) (some [0, 1])).2.heap.length =
      stSh.heap.length + ([0, 0] : List Nat).toFinset.card ∧
    (setSuns recalcEx stSh (.scalar 2) (some [0, 1])).2.refs.getD 2 0 =
      stSh.refs.getD 2 0 :=
  ⟨(C4_scalar_copy_on_write recalcEx 2 stSh [0, 1] (by decide) (by decide)).1
     0 (by decide) 1 (by decide) (by decide),
   (C4_scalar_copy_on_write recalcEx 2 stSh [0, 1] (by decide) (by decide)).2.2.1,
   (C4_scalar_copy_on_write recalcEx 2 stSh [0, 1] (by decide) (by decide)).2.2.2.1
     2 (by decide)⟩

lemma insertSorted_perm (x : ℚ) : ∀ (l : List ℚ), (insertSorted x l).Perm (x :: l)
  | [] => List.Perm.refl _
  | y :: ys => by
    rw [insertSorted]
    by_cases h : x ≤ y
    · rw [if_pos h]
    · rw [if_neg h]
      exact ((insertSorted_perm x ys).cons y).trans (List.Perm.swap x y ys)

lemma foldr_insertSorted_perm : ∀ (l : List ℚ), (l.foldr insertSorted []).Perm l
  | [] => List.Perm.refl _
  | x :: xs => by
    rw [List.foldr_cons]
    exact (insertSorted_perm x _).trans ((foldr_insertSorted_perm xs).cons x)

lemma uniqueSorted_nodup (qs : List ℚ) : (uniqueSorted qs).Nodup := by
  rw [uniqueSorted]
  exact ((foldr_insertSorted_perm qs.dedup).nodup_iff).mpr (List.nodup_dedup qs)

lemma zip_assoc_unique : ∀ (l : List (Nat × ℚ)), (l.map Prod.fst).Nodup →
    ∀ a b c, (a, b) ∈ l → (a, c) ∈ l → b = c
  | [], _, a, b, c, h, _ => by simp at h
  | p :: rest, hnd, a, b, c, hb, hc => by
    rw [List.map_cons] at hnd
    have hnd' := List.nodup_cons.mp hnd
    rcases List.mem_cons.mp hb with hpb | hb'
    · rcases List.mem_cons.mp hc with hpc | hc'
      · have h3 : (a, b) = (a, c) := hpb.trans hpc.symm
        rw [Prod.mk.injEq] at h3
        exact h3.2
      · exfalso
        apply hnd'.1
        have ha : p.1 = a := (congrArg Prod.fst hpb).symm
        rw [ha]
        exact List.mem_map.mpr ⟨(a, c), hc', rfl⟩
    · rcases List.mem_cons.mp hc with hpc | hc'
      · exfalso
        apply hnd'.1
        have ha : p.1 = a := (congrArg Prod.fst hpc).symm
        rw [ha]
        exact List.mem_map.mpr ⟨(a, b), hb', rfl⟩
      · exact zip_assoc_unique rest hnd'.2 a b c hb' hc'

lemma vecLoop_count (recalc : PVCell → ℚ → PVCell) (grp : ℚ → List Nat) (refs0 : List Nat) :
    ∀ (vals : List ℚ) (refs : List Nat) (heap : List PVCell),
    vals.Nodup →
    (∀ v w cid, v ∈ vals → w ∈ vals → cid ∈ grp v → cid ∈ grp w → v = w) →
    refs.length = refs0.length →
    (∀ i, i < refs.length → refs.getD i 0 < heap.length) →
    (∀ v ∈ vals, ∀ cid ∈ grp v, cid < refs.length) →
    (∀ v ∈ vals, ∀ cid ∈ grp v, refs.getD cid 0 = refs0.getD cid 0) →
    (vals.foldl (fun (acc : List Nat × List PVCell) v =>
        setSunsScalarSubset recalc v (grp v) acc.1 acc.2) (refs, heap)).2.length =
      heap.length + (vals.map (fun v =>
        ((grp v).map (fun cid => refs0.getD cid 0)).toFinset.card)).sum
  | [], refs, heap, _, _, _, _, _, _ => by simp
  | v :: vals, refs, heap, hnd, hdisj, hlen, hre, hcid, hagree => by
    rw [List.foldl_cons]
    have hvnotin : v ∉ vals := (List.nodup_cons.mp hnd).1
    have hcidv : ∀ cid ∈ grp v, cid < refs.length := hcid v (List.mem_cons_self _ _)
    have hrev : ∀ cid ∈ grp v, refs.getD cid 0 < heap.length :=
      fun cid hc => hre cid (hcidv cid hc)
    have hs := setSunsScalarSubset_spec recalc v (grp v) refs heap hcidv hrev
    have hrec := vecLoop_count recalc grp refs0 vals
      (setSunsScalarSubset recalc v (grp v) refs heap).1
      (setSunsScalarSubset recalc v (grp v) refs heap).2
      (List.nodup_cons.mp hnd).2
      (fun a b cid ha hb => hdisj a b cid (List.mem_cons_of_mem _ ha)
        (List.mem_cons_of_mem _ hb))
      (hs.1.trans hlen)
      (fun i hi => hs.2.2.2.2.2 i (by rw [← hs.1]; exact hi)
        (hre i (by rw [← hs.1]; exact hi)))
      (fun w hw cid hc => by
        rw [hs.1]
        exact hcid w (List.mem_cons_of_mem _ hw) cid hc)
      (fun w hw cid hc => by
        have hnotv : cid ∉ grp v := by
          intro hcv
          exact hvnotin ((hdisj v w cid (List.mem_cons_self _ _)
            (List.mem_cons_of_mem _ hw) hcv hc) ▸ hw)
        rw [hs.2.2.1 cid hnotv]
        exact hagree w (List.mem_cons_of_mem _ hw) cid hc)
    have hmapeq : (grp v).map (fun cid => refs.getD cid 0) =
        (grp v).map (fun cid => refs0.getD cid 0) :=
      List.map_congr_left (fun cid hc => hagree v (List.mem_cons_self _ _) cid hc)
    refine hrec.trans ?_
    rw [hs.2.1, hmapeq, List.map_cons, List.sum_cons]
    omega

/-- Counterexample to C9: a two-cell module whose cells share one cell
object, updated through the *no-subset* per-cell path with the identical
irradiance value for both cells.  The code copies and recomputes once per
cell (the heap grows by 2), although there is only one distinct
(prior object, requested value) pair. -/
theorem C9_counterexample :
    (setSuns recalcEx
        ⟨[[[⟨false, 0⟩], [⟨false, 1⟩]]], 2, [0, 0],
         [⟨1, 0, 6, 1, -10, [6, 0], [0, 1]⟩], -1/2, [], IVExpr.cell 0⟩
        (.vec [1, 1]) none).2.heap.length =
      ([⟨1, 0, 6, 1, -10, [6, 0], [0, 1]⟩] : List PVCell).length + 2 ∧
    (([0, 0] : List Nat).zip [(1 : ℚ), 1]).toFinset.card = 1 ∧
    (2 : Nat) ≠ 1 := by
  refine ⟨rfl, by decide, by decide⟩

/-- C9 amended: with an explicit cell-index subset and a per-cell
irradiance sequence, the targeted cells are grouped by requested value and
exactly one recomputation occurs per distinct (prior cell object,
requested value) pair: the heap grows by the sum, over the distinct
requested values, of the number of distinct prior references among the
cells requesting that value.  (Without a subset, the per-cell path of
`setSuns` instead copies and recomputes once per targeted cell, per the
counterexample.) -/
theorem C9_amended_per_value_grouping (recalc : PVCell → ℚ → PVCell) (qs : List ℚ)
    (st : ModuleSt) (cells : List Nat)
    (hlen : qs.length = cells.length)
    (hnd : cells.Nodup)
    (hcid : ∀ cid ∈ cells, cid < st.refs.length)
    (hre : ∀ i, i < st.refs.length → st.refs.getD i 0 < st.heap.length) :
    (setSuns recalc st (.vec qs) (some cells)).2.heap.length =
      st.heap.length + ((uniqueSorted qs).map (fun v =>
        (((cells.zip qs).filterMap (fun p => if p.2 = v then some p.1 else none)).map
          (fun cid => st.refs.getD cid 0)).toFinset.card)).sum := by
  have e : (setSuns recalc st (.vec qs) (some cells)).2.heap =
      (setSunsVecSubset recalc qs cells st.refs st.heap).2 := by
    simp only [setSuns, if_pos hlen]
    exact (finishSetSuns_refs_heap _).2
  rw [e]
  have hzf : (cells.zip qs).map Prod.fst = cells :=
    List.map_fst_zip cells qs (le_of_eq hlen.symm)
  have hpair : ∀ v cid, cid ∈ (cells.zip qs).filterMap
      (fun p => if p.2 = v then some p.1 else none) → (cid, v) ∈ cells.zip qs := by
    intro v cid hc
    obtain ⟨p, hpz, hpi⟩ := List.mem_filterMap.mp hc
    by_cases hpv : p.2 = v
    · rw [if_pos hpv] at hpi
      injection hpi with h1
      rw [← h1, ← hpv]
      exact hpz
    · rw [if_neg hpv] at hpi
      cases hpi
  have hsub : ∀ v cid, cid ∈ (cells.zip qs).filterMap
      (fun p => if p.2 = v then some p.1 else none) → cid ∈ cells := by
    intro v cid hc
    rw [← hzf]
    exact List.mem_map.mpr ⟨(cid, v), hpair v cid hc, rfl⟩
  have hdisj : ∀ v w cid, v ∈ uniqueSorted qs → w ∈ uniqueSorted qs →
      cid ∈ (cells.zip qs).filterMap (fun p => if p.2 = v then some p.1 else none) →
      cid ∈ (cells.zip qs).filterMap (fun p => if p.2 = w then some p.1 else none) →
      v = w := by
    intro v w cid _ _ hv hw
    exact zip_assoc_unique (cells.zip qs) (by rw [hzf]; exact hnd) cid v w
      (hpair v cid hv) (hpair w cid hw)
  exact vecLoop_count recalc
    (fun v => (cells.zip qs).filterMap (fun p => if p.2 = v then some p.1 else none))
    st.refs (uniqueSorted qs) st.refs st.heap (uniqueSorted_nodup qs) hdisj rfl hre
    (fun v _ cid hc => hcid cid (hsub v cid hc))
    (fun _ _ _ _ => rfl)

/-- Witness for C9 amended at `stSh`: cells 0 and 1 (sharing one object)
request value 2 and cell 2 requests value 3, so exactly two
recomputations occur. -/
theorem C9_amended_per_value_grouping_witness :
    ([2, 2, 3] : List ℚ).length = ([0, 1, 2] : List Nat).length ∧
    (setSuns recalcEx stSh (.vec [2, 2, 3]) (some [0, 1, 2])).2.heap.length =
      stSh.heap.length + 2 :=
  ⟨by decide,
   (C9_amended_per_value_grouping recalcEx [2, 2, 3] stSh [0, 1, 2]
     (by decide) (by decide) (by decide) (by decide)).trans (by decide)⟩
